import Mathlib

/-!
Verification of the qwc-admin-gui controllers (resources controller, themes
controller, theme form) against their natural-language specification.

The Python code is shallowly embedded: the database is a list of resource
rows, the themes JSON document is an explicit structure of ordered key/value
lists, and every operation that can raise an uncaught Python exception
(IndexError, KeyError, ValueError, TypeError) returns an `Option`.
Recursive tree walks over the self-referential `parent_id` column are
embedded with an explicit fuel argument; the theorems assume the fuel is
large enough for the (acyclic) input at hand.
-/

/-! ## Python string ordering

Python compares strings lexicographically by unicode code point.  We model
this on `String.toList` because the kernel cannot reduce `String.ltb`.
-/

/-- Strict lexicographic order on char lists, by unicode code point,
as Python compares strings. -/
def charListLt : List Char → List Char → Bool
  | _, [] => false
  | [], _ :: _ => true
  | a :: as, b :: bs =>
    a.toNat < b.toNat || (a.toNat == b.toNat && charListLt as bs)

/-- Python's `a < b` on strings. -/
def strLt (a b : String) : Bool := charListLt a.toList b.toList

/-- Python's `a <= b` on strings (the order produced by `sorted`). -/
def strLe (a b : String) : Bool := !(strLt b a)

theorem charListLt_asymm (a b : List Char) (h : charListLt a b = true) :
    charListLt b a = false := by
  induction a generalizing b with
  | nil => cases b <;> simp [charListLt]
  | cons x xs ih =>
    cases b with
    | nil => simp [charListLt] at h
    | cons y ys =>
      apply Bool.eq_false_iff.mpr
      intro hba
      simp only [charListLt, Bool.or_eq_true, Bool.and_eq_true,
        decide_eq_true_eq, beq_iff_eq] at h hba
      rcases h with h | ⟨he, h⟩ <;> rcases hba with hba | ⟨hbe, hba⟩
      · omega
      · omega
      · omega
      · simp [ih ys h] at hba

theorem charListLt_trans (a b c : List Char) (hab : charListLt a b = true)
    (hbc : charListLt b c = true) : charListLt a c = true := by
  induction a generalizing b c with
  | nil =>
    cases c with
    | nil => cases b <;> simp [charListLt] at hab hbc
    | cons z zs => simp [charListLt]
  | cons x xs ih =>
    cases b with
    | nil => simp [charListLt] at hab
    | cons y ys =>
      cases c with
      | nil => simp [charListLt] at hbc
      | cons z zs =>
        simp only [charListLt, Bool.or_eq_true, Bool.and_eq_true,
          decide_eq_true_eq, beq_iff_eq] at hab hbc ⊢
        rcases hab with hab | ⟨he1, hab⟩ <;> rcases hbc with hbc | ⟨he2, hbc⟩
        · left; omega
        · left; omega
        · left; omega
        · right; exact ⟨by omega, ih ys zs hab hbc⟩

theorem charListLt_connex (a b : List Char) (hab : charListLt a b = false)
    (hba : charListLt b a = false) : a = b := by
  induction a generalizing b with
  | nil =>
    cases b with
    | nil => rfl
    | cons y ys => simp [charListLt] at hab
  | cons x xs ih =>
    cases b with
    | nil => simp [charListLt] at hba
    | cons y ys =>
      rw [Bool.eq_false_iff] at hab hba
      simp only [charListLt, ne_eq, Bool.or_eq_true, Bool.and_eq_true,
        decide_eq_true_eq, beq_iff_eq] at hab hba
      push_neg at hab hba
      have hxy : x.toNat = y.toNat := by
        have h1 := hab.1; have h2 := hba.1; omega
      have hx : x = y := by
        have := congrArg Char.ofNat hxy
        rwa [Char.ofNat_toNat, Char.ofNat_toNat] at this
      subst hx
      have t1 : charListLt xs ys = false := Bool.eq_false_iff.mpr (hab.2 rfl)
      have t2 : charListLt ys xs = false := Bool.eq_false_iff.mpr (hba.2 rfl)
      exact congrArg (x :: ·) (ih ys t1 t2)

theorem strLe_total (a b : String) : (strLe a b || strLe b a) = true := by
  simp only [strLe, strLt, Bool.or_eq_true, Bool.not_eq_true']
  by_cases h : charListLt b.toList a.toList = true
  · right; exact charListLt_asymm _ _ h
  · left; simpa using h

theorem strLe_trans (a b c : String) (hab : strLe a b = true)
    (hbc : strLe b c = true) : strLe a c = true := by
  simp only [strLe, strLt, Bool.not_eq_true'] at hab hbc ⊢
  by_cases hca : charListLt c.toList a.toList = true
  · exfalso
    by_cases hab' : charListLt a.toList b.toList = true
    · have hcb := charListLt_trans _ _ _ hca hab'
      rw [hcb] at hbc
      exact absurd hbc (by decide)
    · have hab2 : a.toList = b.toList :=
        charListLt_connex _ _ (by simpa using hab') hab
      rw [← hab2, hca] at hbc
      exact absurd hbc (by decide)
  · simpa using hca

/-! ## Resource rows

`Resource` models a row of the `resources` table: `id`, `type`, `name` and
the nullable self-referential `parent_id`. -/

structure Resource where
  id : Nat
  type : String
  name : String
  parent_id : Option Nat
deriving DecidableEq, Repr

/-! ## Pagination (ResourcesController.index)

`num_pages` embeds `math.ceil(query.count() / per_page)` with exact
rational division; `page_slice` embeds
`query.limit(per_page).offset((page - 1) * per_page).all()`. -/

/-- `math.ceil(count / per_page)` of the index view, with exact division. -/
def num_pages (count per_page : Nat) : Nat := ⌈(count : ℚ) / (per_page : ℚ)⌉₊

/-- `query.limit(per_page).offset((page - 1) * per_page)` over the filtered,
sorted row list. -/
def page_slice {α : Type} (rows : List α) (page per_page : Nat) : List α :=
  (rows.drop ((page - 1) * per_page)).take per_page

/-! ## Map and layer import (ResourcesController.import_maps/import_layers)

`sorted(list(set(names_from_config) - set(existing)))` is embedded as
dedup, filter and mergeSort with the Python string order; the new rows are
appended and committed in one batch.  Fresh autoincremented ids start at
`startId`. -/

/-- `ResourcesController.import_maps`, after the config service returned
`maps_from_config`: inserts the sorted set difference as new `map` rows. -/
def import_maps (maps_from_config : List String) (db : List Resource)
    (startId : Nat) : List Resource :=
  let maps := (db.filter (fun r => r.type == "map")).map (·.name)
  let new_maps :=
    ((maps_from_config.dedup.filter (fun m => !maps.contains m)).mergeSort strLe)
  db ++ new_maps.enum.map (fun p =>
    { id := startId + p.1, type := "map", name := p.2, parent_id := none })

/-- `ResourcesController.import_layers`, after the config service returned
`layers_from_config` for `map_resource`: inserts the sorted set difference
as new `layer` rows parented to the map. -/
def import_layers (layers_from_config : List String) (map_resource : Resource)
    (db : List Resource) (startId : Nat) : List Resource :=
  if layers_from_config.isEmpty then db
  else
    let layers := (db.filter (fun r =>
      r.type == "layer" && r.parent_id == some map_resource.id)).map (·.name)
    let new_layers :=
      ((layers_from_config.dedup.filter (fun m => !layers.contains m)).mergeSort strLe)
    db ++ new_layers.enum.map (fun p =>
      { id := startId + p.1, type := "layer", name := p.2,
        parent_id := some map_resource.id })

theorem num_pages_eq (n p : Nat) (hp : 0 < p) :
    num_pages n p = (n + p - 1) / p := by
  have hp' : (0 : ℚ) < (p : ℚ) := by exact_mod_cast hp
  apply le_antisymm
  · rw [num_pages, Nat.ceil_le, div_le_iff₀ hp']
    have hn : n ≤ ((n + p - 1) / p) * p := by
      have hdm := Nat.div_add_mod (n + p - 1) p
      have hmod := Nat.mod_lt (n + p - 1) hp
      rw [Nat.mul_comm]
      omega
    exact_mod_cast hn
  · have hle := Nat.le_ceil ((n : ℚ) / (p : ℚ))
    have hk : (n : ℚ) ≤ (⌈(n : ℚ) / (p : ℚ)⌉₊ : ℚ) * (p : ℚ) :=
      (div_le_iff₀ hp').mp hle
    have hk' : n ≤ ⌈(n : ℚ) / (p : ℚ)⌉₊ * p := by exact_mod_cast hk
    rw [num_pages, Nat.div_le_iff_le_mul_add_pred hp]
    rw [Nat.mul_comm] at hk'
    omega

/-- Claim C4: for a filtered query with `n` rows and page size `p > 0` the
index view reports `⌈n / p⌉` pages; every requested page `page ≥ 1` yields
the slice of rows at offset `(page - 1) * p` of length at most `p` (exactly
`min p (n - offset)`, elementwise the rows at the shifted positions), and a
page past the last one yields the empty list rather than an error. -/
theorem index_pagination_correct {α : Type} (rows : List α) (page per_page : Nat)
    (hp : 0 < per_page) (hpage : 1 ≤ page) :
    num_pages rows.length per_page = (rows.length + per_page - 1) / per_page
    ∧ (page_slice rows page per_page).length ≤ per_page
    ∧ (page_slice rows page per_page).length
        = min per_page (rows.length - (page - 1) * per_page)
    ∧ (∀ i : Nat, i < per_page →
        (page_slice rows page per_page)[i]? = rows[(page - 1) * per_page + i]?)
    ∧ (num_pages rows.length per_page < page → page_slice rows page per_page = []) := by
  refine ⟨num_pages_eq _ _ hp, ?_, ?_, ?_, ?_⟩
  · simp only [page_slice, List.length_take]
    exact Nat.min_le_left _ _
  · simp [page_slice, List.length_take, List.length_drop]
  · intro i hi
    simp only [page_slice]
    rw [List.getElem?_take_of_lt hi, List.getElem?_drop]
  · intro hgt
    rw [num_pages_eq _ _ hp] at hgt
    have hout : rows.length ≤ (page - 1) * per_page := by
      have h1 : (rows.length + per_page - 1) / per_page ≤ page - 1 := by omega
      rw [Nat.div_le_iff_le_mul_add_pred hp] at h1
      rw [Nat.mul_comm]
      omega
    simp [page_slice, List.drop_eq_nil_of_le hout]

theorem sorted_diff_mem (cfg existing : List String) (n : String) :
    (n ∈ (cfg.dedup.filter (fun m => !existing.contains m)).mergeSort strLe)
      ↔ (n ∈ cfg ∧ n ∉ existing) := by
  rw [List.mem_mergeSort, List.mem_filter, List.mem_dedup]
  simp

theorem sorted_diff_sorted (cfg existing : List String) :
    ((cfg.dedup.filter (fun m => !existing.contains m)).mergeSort strLe).Pairwise
      (fun a b => strLe a b = true) :=
  List.sorted_mergeSort strLe_trans strLe_total _

theorem inserted_names {f : Nat × String → Resource}
    (hf : ∀ p, (f p).name = p.2) (l : List String) :
    (l.enum.map f).map (·.name) = l := by
  rw [List.map_map]
  have : ((fun r : Resource => r.name) ∘ f) = Prod.snd := by
    funext p; exact hf p
  rw [this, List.enum_map_snd]

/-- Claim C3: map import inserts exactly the names returned by the config
service minus the existing `map`-typed rows (case-sensitive), never inserts
an existing name, and stages the inserted rows in Python-lexicographic
order; layer import does the same against the existing `layer` rows of the
given map, parenting the new rows to it. -/
theorem import_diff_correct (cfgNames : List String) (db : List Resource)
    (startId : Nat) (map_resource : Resource) :
    ((import_maps cfgNames db startId).take db.length = db
      ∧ (∀ n : String,
          (∃ r ∈ (import_maps cfgNames db startId).drop db.length, r.name = n)
            ↔ (n ∈ cfgNames ∧ ¬ ∃ r ∈ db, r.type = "map" ∧ r.name = n))
      ∧ (((import_maps cfgNames db startId).drop db.length).map (·.name)).Pairwise
          (fun a b => strLe a b = true)
      ∧ (∀ r ∈ (import_maps cfgNames db startId).drop db.length,
          r.type = "map" ∧ r.parent_id = none))
    ∧ ((import_layers cfgNames map_resource db startId).take db.length = db
      ∧ (∀ n : String,
          (∃ r ∈ (import_layers cfgNames map_resource db startId).drop db.length,
              r.name = n)
            ↔ (n ∈ cfgNames ∧ ¬ ∃ r ∈ db, r.type = "layer"
                ∧ r.parent_id = some map_resource.id ∧ r.name = n))
      ∧ (((import_layers cfgNames map_resource db startId).drop db.length).map
          (·.name)).Pairwise (fun a b => strLe a b = true)
      ∧ (∀ r ∈ (import_layers cfgNames map_resource db startId).drop db.length,
          r.type = "layer" ∧ r.parent_id = some map_resource.id)) := by
  constructor
  · rw [import_maps]
    rw [List.take_left, List.drop_left]
    refine ⟨rfl, ?_, ?_, ?_⟩
    · intro n
      rw [← List.mem_map (f := fun r : Resource => r.name)]
      rw [inserted_names (fun p => rfl)]
      rw [sorted_diff_mem]
      constructor
      · rintro ⟨h1, h2⟩
        refine ⟨h1, ?_⟩
        rintro ⟨r, hr, hty, hnm⟩
        exact h2 (by
          rw [List.mem_map]
          exact ⟨r, by rw [List.mem_filter]; exact ⟨hr, by simp [hty]⟩, hnm⟩)
      · rintro ⟨h1, h2⟩
        refine ⟨h1, ?_⟩
        intro hmem
        rw [List.mem_map] at hmem
        obtain ⟨r, hr, hnm⟩ := hmem
        rw [List.mem_filter] at hr
        exact h2 ⟨r, hr.1, by simpa using hr.2, hnm⟩
    · rw [inserted_names (fun p => rfl)]
      exact sorted_diff_sorted _ _
    · intro r hr
      rw [List.mem_map] at hr
      obtain ⟨p, _, hp⟩ := hr
      rw [← hp]
      exact ⟨rfl, rfl⟩
  · rw [import_layers]
    by_cases hemp : cfgNames.isEmpty
    · rw [if_pos hemp]
      rw [List.isEmpty_iff] at hemp
      subst hemp
      refine ⟨List.take_length _, ?_, ?_, ?_⟩
      · intro n
        simp [List.drop_eq_nil_of_le (Nat.le_refl _)]
      · simp [List.drop_eq_nil_of_le (Nat.le_refl _)]
      · simp [List.drop_eq_nil_of_le (Nat.le_refl _)]
    · rw [if_neg hemp]
      rw [List.take_left, List.drop_left]
      refine ⟨rfl, ?_, ?_, ?_⟩
      · intro n
        rw [← List.mem_map (f := fun r : Resource => r.name)]
        rw [inserted_names (fun p => rfl)]
        rw [sorted_diff_mem]
        constructor
        · rintro ⟨h1, h2⟩
          refine ⟨h1, ?_⟩
          rintro ⟨r, hr, hty, hpar, hnm⟩
          exact h2 (by
            rw [List.mem_map]
            exact ⟨r, by rw [List.mem_filter]; exact ⟨hr, by simp [hty, hpar]⟩, hnm⟩)
        · rintro ⟨h1, h2⟩
          refine ⟨h1, ?_⟩
          intro hmem
          rw [List.mem_map] at hmem
          obtain ⟨r, hr, hnm⟩ := hmem
          rw [List.mem_filter] at hr
          have hr2 := hr.2
          simp only [Bool.and_eq_true, beq_iff_eq] at hr2
          exact h2 ⟨r, hr.1, hr2.1, hr2.2, hnm⟩
      · rw [inserted_names (fun p => rfl)]
        exact sorted_diff_sorted _ _
      · intro r hr
        rw [List.mem_map] at hr
        obtain ⟨p, _, hp⟩ := hr
        rw [← hp]
        exact ⟨rfl, rfl⟩

/-! ## The themes JSON document (ThemesController)

A theme item is an ordered dict of JSON values; the document holds a flat
item list and a list of titled groups.  List accesses follow Python
semantics: negative indices count from the end, and an out-of-range index
raises IndexError (`none`). -/

/-- An entry of a theme's `backgroundLayers` JSON list; `printLayer` and
`visibility` may be absent in the document. -/
structure BgLayer where
  name : String
  printLayer : Option String
  visibility : Option Bool
deriving DecidableEq, Repr

/-- A JSON value as used inside a theme item. -/
inductive JVal where
  | jstr (s : String)
  | jbool (b : Bool)
  | jint (n : Int)
  | jints (l : List Int)
  | jstrs (l : List String)
  | jbgs (l : List BgLayer)
deriving DecidableEq, Repr

/-- A theme item: an ordered JSON dict. -/
abbrev ThemeItem : Type := List (String × JVal)

/-- Python dict access `item[k]` (first binding of the key). -/
def itemGet (item : ThemeItem) (k : String) : Option JVal :=
  match item with
  | [] => none
  | (k', v) :: rest => if k' == k then some v else itemGet rest k

/-- One entry of `themesConfig["themes"]["groups"]`. -/
structure ThemeGroup where
  title : String
  items : List ThemeItem
deriving DecidableEq

/-- The `themes` object of the themesConfig document. -/
structure ThemesConfig where
  items : List ThemeItem
  groups : List ThemeGroup
deriving DecidableEq

/-- Python list index normalization: negative indices count from the end,
anything still out of `[0, len)` raises IndexError. -/
def pyIndex (len : Nat) (i : Int) : Option Nat :=
  if i < 0 then
    (if 0 ≤ i + len then some (i + len).toNat else none)
  else if i < len then some i.toNat else none

/-- Python `l[i]` on a list. -/
def pyGet {α : Type} (l : List α) (i : Int) : Option α :=
  match pyIndex l.length i with
  | none => none
  | some n => l[n]?

/-- Python `l[i] = v` on a list. -/
def pySet {α : Type} (l : List α) (i : Int) (v : α) : Option (List α) :=
  match pyIndex l.length i with
  | none => none
  | some n => some (l.set n v)

/-- `name.split("/")[-1]`: the suffix of a url after its last `/`. -/
def url_basename (s : String) : String :=
  ⟨s.toList.foldl (fun acc c => if c = '/' then [] else acc ++ [c]) []⟩

/-- The body of `ThemesController.move_theme` acting on one item list:
the Python tuple assignments
`items[tid - 1], items[tid] = items[tid], items[tid - 1]` (direction up) and
`items[tid], items[tid - 1] = items[tid - 1], items[tid]` (direction down)
evaluate the right-hand sides first, then assign left to right. -/
def move_theme_items {α : Type} (items : List α) (direction : String)
    (tid : Nat) : Option (List α) :=
  if direction = "up" ∧ 0 < tid then do
    let a ← pyGet items tid
    let b ← pyGet items ((tid : Int) - 1)
    let l1 ← pySet items ((tid : Int) - 1) a
    pySet l1 tid b
  else if direction = "down" ∧ (tid : Int) < (items.length : Int) - 1 then do
    let a ← pyGet items ((tid : Int) - 1)
    let b ← pyGet items tid
    let l1 ← pySet items tid a
    pySet l1 ((tid : Int) - 1) b
  else
    pure items

/-- `ThemesController.move_theme`: moves the addressed theme item inside the
flat list (`gid = none`) or inside group `gid`. -/
def move_theme (cfg : ThemesConfig) (direction : String) (tid : Nat)
    (gid : Option Nat) : Option ThemesConfig :=
  match gid with
  | none => do
    let items' ← move_theme_items cfg.items direction tid
    pure { cfg with items := items' }
  | some g => do
    let grp ← cfg.groups[g]?
    let items' ← move_theme_items grp.items direction tid
    pure { cfg with groups := cfg.groups.set g { grp with items := items' } }

/-- `ThemesController.move_theme_group`: the same tuple-assignment pattern on
the group list, guarded by `gid > 1` (up) and `len(groups) > gid` (down). -/
def move_theme_group (cfg : ThemesConfig) (direction : String) (gid : Nat) :
    Option ThemesConfig :=
  if direction = "up" ∧ 1 < gid then do
    let a ← pyGet cfg.groups gid
    let b ← pyGet cfg.groups ((gid : Int) - 1)
    let l1 ← pySet cfg.groups ((gid : Int) - 1) a
    let l2 ← pySet l1 gid b
    pure { cfg with groups := l2 }
  else if direction = "down" ∧ (gid : Int) < (cfg.groups.length : Int) then do
    let a ← pyGet cfg.groups ((gid : Int) - 1)
    let b ← pyGet cfg.groups gid
    let l1 ← pySet cfg.groups gid a
    let l2 ← pySet l1 ((gid : Int) - 1) b
    pure { cfg with groups := l2 }
  else
    pure cfg

/-- `ThemesController.delete_theme_group`: `groups.pop(gid)` with no bounds
check; an out-of-range `gid` raises an uncaught IndexError. -/
def delete_theme_group (cfg : ThemesConfig) (gid : Nat) : Option ThemesConfig :=
  if gid < cfg.groups.length then
    some { cfg with groups := cfg.groups.eraseIdx gid }
  else
    none

/-- Claim C1 (failing input): on the flat three-item list a/b/c, moving
item 1 "down" swaps it with its predecessor (item 0) instead of its
successor, yielding b/a/c; and moving item 0 "down" swaps it with the LAST
item via Python negative indexing, yielding c/b/a.  The claimed swap with
the successor in the stated direction does not happen. -/
theorem move_theme_down_failing_input :
    move_theme
        { items := [[("url", JVal.jstr "a")], [("url", JVal.jstr "b")],
            [("url", JVal.jstr "c")]], groups := [] } "down" 1 none
      = some { items := [[("url", JVal.jstr "b")], [("url", JVal.jstr "a")],
            [("url", JVal.jstr "c")]], groups := [] }
    ∧ move_theme
        { items := [[("url", JVal.jstr "a")], [("url", JVal.jstr "b")],
            [("url", JVal.jstr "c")]], groups := [] } "down" 0 none
      = some { items := [[("url", JVal.jstr "c")], [("url", JVal.jstr "b")],
            [("url", JVal.jstr "a")]], groups := [] } := by
  constructor <;> rfl

/-- Claim C7 (failing input): moving group 1 of three "up" is a no-op
(the guard is `gid > 1`, not `gid > 0`), and moving the last group "down"
is NOT a no-op (the guard is `len(groups) > gid`): it swaps the last two
groups. -/
theorem move_theme_group_failing_input :
    move_theme_group
        { items := [], groups := [⟨"g0", []⟩, ⟨"g1", []⟩, ⟨"g2", []⟩] } "up" 1
      = some { items := [], groups := [⟨"g0", []⟩, ⟨"g1", []⟩, ⟨"g2", []⟩] }
    ∧ move_theme_group
        { items := [], groups := [⟨"g0", []⟩, ⟨"g1", []⟩, ⟨"g2", []⟩] } "down" 2
      = some { items := [], groups := [⟨"g0", []⟩, ⟨"g2", []⟩, ⟨"g1", []⟩] } := by
  constructor <;> rfl

/-- Claim C8 (counterexample): `delete_theme_group` on an empty group list
raises an uncaught IndexError (`none`) instead of recovering the failure at
the request boundary. -/
theorem delete_theme_group_uncaught :
    delete_theme_group { items := [], groups := [] } 0 = none := by
  rfl

/-- Claim C8 (amended): database and IO failures are flashed, but
out-of-range indices are not handled: `delete_theme_group` completes without
an uncaught exception exactly when `gid` is in range, and then only removes
the addressed group. -/
theorem delete_theme_group_success_iff (cfg : ThemesConfig) (gid : Nat) :
    ((delete_theme_group cfg gid).isSome ↔ gid < cfg.groups.length)
    ∧ (∀ cfg', delete_theme_group cfg gid = some cfg' →
        cfg'.groups = cfg.groups.eraseIdx gid ∧ cfg'.items = cfg.items) := by
  unfold delete_theme_group
  by_cases h : gid < cfg.groups.length
  · rw [if_pos h]
    refine ⟨by simpa using h, ?_⟩
    intro cfg' hc
    cases hc
    exact ⟨rfl, rfl⟩
  · rw [if_neg h]
    refine ⟨by simpa using h, ?_⟩
    intro cfg' hc
    cases hc

theorem delete_theme_group_success_iff_witness :
    (delete_theme_group { items := [], groups := [⟨"g", []⟩] } 0).isSome
    ∧ ((delete_theme_group { items := [], groups := [⟨"g", []⟩] } 0).map
        ThemesConfig.groups) = some [] :=
  ⟨(delete_theme_group_success_iff { items := [], groups := [⟨"g", []⟩] } 0).1.mpr
      (by decide),
   by
    have h := (delete_theme_group_success_iff
      { items := [], groups := [⟨"g", []⟩] } 0).2
    rw [show delete_theme_group { items := [], groups := [⟨"g", []⟩] } 0
        = some { items := [], groups := [] } from rfl]
    rfl⟩

/-! ## Theme form data and `create_or_update_theme` -/

/-- Submitted data of one `BackgroundLayersForm` entry. -/
structure BgForm where
  lname : String
  printLayer : String
  visibility : Bool
deriving DecidableEq, Repr

/-- Submitted `ThemeForm` field data: string fields are `""` when left
empty, the optional integer field is `none` when empty. -/
structure ThemeFormData where
  url : String
  title : String
  thumbnail : String
  attribution : String
  attributionUrl : String
  format : String
  mapCrs : String
  additionalMouseCrs : String
  scales : String
  printScales : String
  printResolutions : String
  searchProviders : String
  collapseLayerGroupsBelowLevel : Option Int
  default : Bool
  skipEmptyFeatureAttributes : Bool
  backgroundLayers : List BgForm
deriving DecidableEq

/-- Decimal value of a digit list. -/
def digitsVal (ds : List Char) : Nat :=
  ds.foldl (fun a c => a * 10 + (c.toNat - 48)) 0

/-- Python `int(s)` on a token: optional sign then decimal digits,
ValueError (`none`) otherwise. -/
def parsePyInt (s : String) : Option Int :=
  match s.toList with
  | [] => none
  | '-' :: ds =>
    if ds ≠ [] ∧ ds.all (·.isDigit) then some (-(digitsVal ds : Int)) else none
  | '+' :: ds =>
    if ds ≠ [] ∧ ds.all (·.isDigit) then some ((digitsVal ds : Int)) else none
  | ds => if ds.all (·.isDigit) then some ((digitsVal ds : Int)) else none

/-- Python `cs.split(sep)` on char lists (separators do not merge,
`[] ↦ [[]]`). -/
def splitOnChar (sep : Char) (cs : List Char) : List (List Char) :=
  match cs with
  | [] => [[]]
  | c :: rest =>
    match splitOnChar sep rest with
    | [] => [[c]]
    | h :: t => if c = sep then [] :: h :: t else (c :: h) :: t

/-- `s.replace(" ", "").split(",")`. -/
def splitCommaNoSpace (s : String) : List String :=
  (splitOnChar ',' (s.toList.filter (fun c => c ≠ ' '))).map (fun cs => ⟨cs⟩)

/-- `list(map(int, s.replace(" ", "").split(",")))`. -/
def parseIntListForm (s : String) : Option (List Int) :=
  (splitCommaNoSpace s).mapM parsePyInt

/-- One `if form.<f>.data: item[key] = list(map(int, ...))` step of
`create_or_update_theme`: no entry when the field is empty, ValueError
(`none`) when `int()` fails. -/
def intListEntry (key : String) (s : String) : Option ThemeItem :=
  if s ≠ "" then (parseIntListForm s).map (fun l => [(key, JVal.jints l)])
  else some []

/-- The item dict built by `ThemesController.create_or_update_theme`
(lines 465-533), keys in assignment order. -/
def buildItem (form : ThemeFormData) : Option ThemeItem := do
  let scalesPart ← intListEntry "scales" form.scales
  let printScalesPart ← intListEntry "printScales" form.printScales
  let printResolutionsPart ← intListEntry "printResolutions" form.printResolutions
  pure (
    [("url", JVal.jstr form.url)]
    ++ (if form.title ≠ "" then [("title", JVal.jstr form.title)] else [])
    ++ (if form.thumbnail ≠ "" then [("thumbnail", JVal.jstr form.thumbnail)] else [])
    ++ [("attribution", JVal.jstr form.attribution)]
    ++ (if form.attributionUrl ≠ "" then
          [("attributionUrl", JVal.jstr form.attributionUrl)] else [])
    ++ [("default", JVal.jbool form.default)]
    ++ (if form.format ≠ "" then [("format", JVal.jstr form.format)] else [])
    ++ (if form.mapCrs ≠ "" then [("mapCrs", JVal.jstr form.mapCrs)] else [])
    ++ (if form.additionalMouseCrs ≠ "" then
          [("additionalMouseCrs", JVal.jstr form.additionalMouseCrs)] else [])
    ++ scalesPart ++ printScalesPart ++ printResolutionsPart
    ++ [("skipEmptyFeatureAttributes", JVal.jbool form.skipEmptyFeatureAttributes)]
    ++ (match form.collapseLayerGroupsBelowLevel with
        | some n => if n ≠ 0 then [("collapseLayerGroupsBelowLevel", JVal.jint n)] else []
        | none => [])
    ++ [("searchProviders", JVal.jstrs
          (if form.searchProviders ≠ "" then splitCommaNoSpace form.searchProviders
           else []))]
    ++ [("backgroundLayers", JVal.jbgs (form.backgroundLayers.map
          (fun b => { name := b.lname, printLayer := some b.printLayer,
                      visibility := some b.visibility })))])

/-- `session.query(resources).filter_by(name=name).first()` then
`resource.name = new_name`: renames the FIRST row whose name matches,
regardless of its type; no-op when absent. -/
def renameFirst (db : List Resource) (oldName newName : String) : List Resource :=
  match db with
  | [] => []
  | r :: rest =>
    if r.name == oldName then { r with name := newName } :: rest
    else r :: renameFirst rest oldName newName

/-- `filter_by(type="map", name=name).first()` then `session.delete`:
removes the first `map` row of that name; no-op when absent. -/
def deleteFirstMap (db : List Resource) (nm : String) : List Resource :=
  match db with
  | [] => []
  | r :: rest =>
    if r.type == "map" && r.name == nm then rest
    else r :: deleteFirstMap rest nm

/-- The item the controller addresses at `tid` (and group `gid`). -/
def themeAt (cfg : ThemesConfig) (tid : Nat) (gid : Option Nat) :
    Option ThemeItem :=
  match gid with
  | none => cfg.items[tid]?
  | some g => do
    let grp ← cfg.groups[g]?
    grp.items[tid]?

/-- `ThemesController.create_or_update_theme`: builds the item dict, then
either replaces the addressed item and renames the first resource row whose
name is the prior url basename (edit), or appends the item and inserts a new
`map` resource named after the url basename (create).  `theme` mirrors the
Python parameter; `if theme:` is Python truthiness. -/
def create_or_update_theme (cfg : ThemesConfig) (db : List Resource)
    (theme : Option ThemeItem) (form : ThemeFormData) (tid : Nat)
    (gid : Option Nat) (newId : Nat) : Option (ThemesConfig × List Resource) := do
  let item ← buildItem form
  let new_name := url_basename form.url
  if (match theme with | some t => !t.isEmpty | none => false) then
    match gid with
    | none => do
      let old ← cfg.items[tid]?
      let oldUrl ← itemGet old "url"
      let oldUrlStr ← (match oldUrl with | JVal.jstr s => some s | _ => none)
      pure ({ cfg with items := cfg.items.set tid item },
            renameFirst db (url_basename oldUrlStr) new_name)
    | some g => do
      let grp ← cfg.groups[g]?
      let old ← grp.items[tid]?
      let oldUrl ← itemGet old "url"
      let oldUrlStr ← (match oldUrl with | JVal.jstr s => some s | _ => none)
      pure ({ cfg with groups :=
                cfg.groups.set g { grp with items := grp.items.set tid item } },
            renameFirst db (url_basename oldUrlStr) new_name)
  else
    let db' := db ++ [{ id := newId, type := "map", name := new_name,
                        parent_id := none }]
    match gid with
    | none => pure ({ cfg with items := cfg.items ++ [item] }, db')
    | some g => do
      let grp ← cfg.groups[g]?
      pure ({ cfg with groups :=
                cfg.groups.set g { grp with items := grp.items ++ [item] } }, db')

/-- `ThemesController.delete_theme`: reads the addressed item's url, pops
the item, and deletes the first `map` resource named after the url
basename. -/
def delete_theme (cfg : ThemesConfig) (db : List Resource) (tid : Nat)
    (gid : Option Nat) : Option (ThemesConfig × List Resource) := do
  match gid with
  | none => do
    let it ← cfg.items[tid]?
    let uv ← itemGet it "url"
    let us ← (match uv with | JVal.jstr s => some s | _ => none)
    pure ({ cfg with items := cfg.items.eraseIdx tid },
          deleteFirstMap db (url_basename us))
  | some g => do
    let grp ← cfg.groups[g]?
    let it ← grp.items[tid]?
    let uv ← itemGet it "url"
    let us ← (match uv with | JVal.jstr s => some s | _ => none)
    pure ({ cfg with groups :=
              cfg.groups.set g { grp with items := grp.items.eraseIdx tid } },
          deleteFirstMap db (url_basename us))

theorem itemGet_append (l1 l2 : ThemeItem) (k : String) :
    itemGet (l1 ++ l2) k = (itemGet l1 k).or (itemGet l2 k) := by
  induction l1 with
  | nil => simp [itemGet, Option.none_or]
  | cons p rest ih =>
    obtain ⟨k', v⟩ := p
    simp only [List.cons_append, itemGet]
    by_cases h : (k' == k) = true
    · rw [if_pos h, if_pos h, Option.or_some]
    · rw [if_neg h, if_neg h]
      exact ih

theorem itemGet_cond (c : Prop) [Decidable c] (k k' : String) (v : JVal) :
    itemGet (if c then [(k, v)] else []) k'
      = if c ∧ (k == k') = true then some v else none := by
  by_cases hc : c
  · rw [if_pos hc]
    by_cases hk : (k == k') = true
    · simp [itemGet, hk, hc]
    · simp [itemGet, hk, hc]
  · rw [if_neg hc]
    simp [itemGet, hc]

theorem itemGet_collapse (c : Option Int) (k' : String) :
    itemGet (match c with
      | some n => if n ≠ 0 then [("collapseLayerGroupsBelowLevel", JVal.jint n)]
                  else []
      | none => []) k'
      = if (("collapseLayerGroupsBelowLevel" == k') = true ∧ ∃ n, c = some n ∧ n ≠ 0)
        then some (JVal.jint (c.getD 0)) else none := by
  rcases c with _ | n
  · simp [itemGet]
  · by_cases hn : n = 0
    · simp [itemGet, hn]
    · by_cases hk : (("collapseLayerGroupsBelowLevel" : String) == k') = true
      · simp [itemGet, hn, hk]
      · simp [itemGet, hn, hk]

theorem intListEntry_get_ne {key s : String} {part : ThemeItem}
    (h : intListEntry key s = some part) {k' : String} (hne : key ≠ k') :
    itemGet part k' = none := by
  rw [intListEntry] at h
  by_cases hs : s = ""
  · rw [if_neg (by simpa using hs)] at h
    cases h
    rfl
  · rw [if_pos hs] at h
    rw [Option.map_eq_some'] at h
    obtain ⟨l, _, hl⟩ := h
    rw [← hl]
    simp [itemGet, hne]

theorem intListEntry_isSome {key s : String} {part : ThemeItem}
    (h : intListEntry key s = some part) :
    (itemGet part key).isSome ↔ s ≠ "" := by
  rw [intListEntry] at h
  by_cases hs : s = ""
  · rw [if_neg (by simpa using hs)] at h
    cases h
    simp [itemGet, hs]
  · rw [if_pos hs] at h
    rw [Option.map_eq_some'] at h
    obtain ⟨l, _, hl⟩ := h
    rw [← hl]
    simp [itemGet, hs]

theorem opt_or_none {α : Type} (o : Option α) : o.or none = o := by
  cases o <;> rfl

theorem itemGet_single (k k' : String) (v : JVal) :
    itemGet [(k, v)] k' = if (k == k') = true then some v else none := by
  by_cases h : (k == k') = true <;> simp [itemGet, h]

set_option maxHeartbeats 1000000 in
/-- Claim C9 (step 1): the lookup table of a freshly built theme item. -/
theorem buildItem_get (form : ThemeFormData) (item : ThemeItem)
    (h : buildItem form = some item) (k : String) :
    ∃ sp pp rp,
      intListEntry "scales" form.scales = some sp
      ∧ intListEntry "printScales" form.printScales = some pp
      ∧ intListEntry "printResolutions" form.printResolutions = some rp
      ∧ itemGet item k
        = ((((((((((((((if (("url" == k) = true) then some (JVal.jstr form.url) else none).or
            (if form.title ≠ "" ∧ ("title" == k) = true then some (JVal.jstr form.title) else none)).or
            (if form.thumbnail ≠ "" ∧ ("thumbnail" == k) = true then some (JVal.jstr form.thumbnail) else none)).or
            (if (("attribution" == k) = true) then some (JVal.jstr form.attribution) else none)).or
            (if form.attributionUrl ≠ "" ∧ ("attributionUrl" == k) = true then some (JVal.jstr form.attributionUrl) else none)).or
            (if (("default" == k) = true) then some (JVal.jbool form.default) else none)).or
            (if form.format ≠ "" ∧ ("format" == k) = true then some (JVal.jstr form.format) else none)).or
            (if form.mapCrs ≠ "" ∧ ("mapCrs" == k) = true then some (JVal.jstr form.mapCrs) else none)).or
            (if form.additionalMouseCrs ≠ "" ∧ ("additionalMouseCrs" == k) = true then some (JVal.jstr form.additionalMouseCrs) else none)).or
            (itemGet sp k)).or (itemGet pp k)).or (itemGet rp k)).or
            (if (("skipEmptyFeatureAttributes" == k) = true) then some (JVal.jbool form.skipEmptyFeatureAttributes) else none)).or
            (if (("collapseLayerGroupsBelowLevel" == k) = true
                  ∧ ∃ n, form.collapseLayerGroupsBelowLevel = some n ∧ n ≠ 0)
             then some (JVal.jint (form.collapseLayerGroupsBelowLevel.getD 0)) else none)).or
            ((if (("searchProviders" == k) = true)
              then some (JVal.jstrs (if form.searchProviders ≠ ""
                then splitCommaNoSpace form.searchProviders else [])) else none).or
             (if (("backgroundLayers" == k) = true)
              then some (JVal.jbgs (form.backgroundLayers.map
                (fun b => { name := b.lname, printLayer := some b.printLayer,
                            visibility := some b.visibility }))) else none)) := by
  rw [buildItem] at h
  simp only [Option.bind_eq_bind, Option.bind_eq_some, Option.pure_def,
    Option.some.injEq] at h
  obtain ⟨sp, hsp, pp, hpp, rp, hrp, hitem⟩ := h
  refine ⟨sp, pp, rp, hsp, hpp, hrp, ?_⟩
  subst hitem
  simp only [itemGet_append, itemGet_single, itemGet_cond, itemGet_collapse,
    Option.or_assoc]

/-- Claim C9: every theme item written by create or update contains the keys
url, attribution, default, skipEmptyFeatureAttributes, searchProviders and
backgroundLayers — with `""` / `false` / empty-list values when the optional
fields were left empty — while the remaining optional keys are present
exactly when the corresponding form field is (truthily) filled. -/
theorem buildItem_keys (form : ThemeFormData) (item : ThemeItem)
    (h : buildItem form = some item) :
    itemGet item "url" = some (JVal.jstr form.url)
    ∧ itemGet item "attribution" = some (JVal.jstr form.attribution)
    ∧ itemGet item "default" = some (JVal.jbool form.default)
    ∧ itemGet item "skipEmptyFeatureAttributes"
        = some (JVal.jbool form.skipEmptyFeatureAttributes)
    ∧ (∃ l, itemGet item "searchProviders" = some (JVal.jstrs l)
        ∧ (form.searchProviders = "" → l = []))
    ∧ (∃ l, itemGet item "backgroundLayers" = some (JVal.jbgs l)
        ∧ (form.backgroundLayers = [] → l = []))
    ∧ ((itemGet item "title").isSome ↔ form.title ≠ "")
    ∧ ((itemGet item "thumbnail").isSome ↔ form.thumbnail ≠ "")
    ∧ ((itemGet item "attributionUrl").isSome ↔ form.attributionUrl ≠ "")
    ∧ ((itemGet item "format").isSome ↔ form.format ≠ "")
    ∧ ((itemGet item "mapCrs").isSome ↔ form.mapCrs ≠ "")
    ∧ ((itemGet item "additionalMouseCrs").isSome ↔ form.additionalMouseCrs ≠ "")
    ∧ ((itemGet item "scales").isSome ↔ form.scales ≠ "")
    ∧ ((itemGet item "printScales").isSome ↔ form.printScales ≠ "")
    ∧ ((itemGet item "printResolutions").isSome ↔ form.printResolutions ≠ "")
    ∧ ((itemGet item "collapseLayerGroupsBelowLevel").isSome
        ↔ (∃ n, form.collapseLayerGroupsBelowLevel = some n ∧ n ≠ 0)) := by
  refine ⟨?_, ?_, ?_, ?_, ?_, ?_, ?_, ?_, ?_, ?_, ?_, ?_, ?_, ?_, ?_, ?_⟩
  · obtain ⟨sp, pp, rp, hsp, hpp, hrp, hg⟩ := buildItem_get form item h "url"
    rw [hg]; simp
  · obtain ⟨sp, pp, rp, hsp, hpp, hrp, hg⟩ := buildItem_get form item h "attribution"
    rw [hg]; simp
  · obtain ⟨sp, pp, rp, hsp, hpp, hrp, hg⟩ := buildItem_get form item h "default"
    rw [hg]; simp
  · obtain ⟨sp, pp, rp, hsp, hpp, hrp, hg⟩ :=
      buildItem_get form item h "skipEmptyFeatureAttributes"
    rw [hg]
    rw [intListEntry_get_ne hsp (by decide), intListEntry_get_ne hpp (by decide),
      intListEntry_get_ne hrp (by decide)]
    simp
  · obtain ⟨sp, pp, rp, hsp, hpp, hrp, hg⟩ :=
      buildItem_get form item h "searchProviders"
    refine ⟨(if form.searchProviders ≠ "" then splitCommaNoSpace form.searchProviders
      else []), ?_, ?_⟩
    · rw [hg]
      rw [intListEntry_get_ne hsp (by decide), intListEntry_get_ne hpp (by decide),
        intListEntry_get_ne hrp (by decide)]
      simp
    · intro he; simp [he]
  · obtain ⟨sp, pp, rp, hsp, hpp, hrp, hg⟩ :=
      buildItem_get form item h "backgroundLayers"
    refine ⟨form.backgroundLayers.map (fun b =>
      { name := b.lname, printLayer := some b.printLayer,
        visibility := some b.visibility }), ?_, ?_⟩
    · rw [hg]
      rw [intListEntry_get_ne hsp (by decide), intListEntry_get_ne hpp (by decide),
        intListEntry_get_ne hrp (by decide)]
      simp
    · intro he; simp [he]
  · obtain ⟨sp, pp, rp, hsp, hpp, hrp, hg⟩ := buildItem_get form item h "title"
    rw [hg]
    rw [intListEntry_get_ne hsp (by decide), intListEntry_get_ne hpp (by decide),
      intListEntry_get_ne hrp (by decide)]
    by_cases ht : form.title = "" <;> simp [ht]
  · obtain ⟨sp, pp, rp, hsp, hpp, hrp, hg⟩ := buildItem_get form item h "thumbnail"
    rw [hg]
    rw [intListEntry_get_ne hsp (by decide), intListEntry_get_ne hpp (by decide),
      intListEntry_get_ne hrp (by decide)]
    by_cases ht : form.thumbnail = "" <;> simp [ht]
  · obtain ⟨sp, pp, rp, hsp, hpp, hrp, hg⟩ :=
      buildItem_get form item h "attributionUrl"
    rw [hg]
    rw [intListEntry_get_ne hsp (by decide), intListEntry_get_ne hpp (by decide),
      intListEntry_get_ne hrp (by decide)]
    by_cases ht : form.attributionUrl = "" <;> simp [ht]
  · obtain ⟨sp, pp, rp, hsp, hpp, hrp, hg⟩ := buildItem_get form item h "format"
    rw [hg]
    rw [intListEntry_get_ne hsp (by decide), intListEntry_get_ne hpp (by decide),
      intListEntry_get_ne hrp (by decide)]
    by_cases ht : form.format = "" <;> simp [ht]
  · obtain ⟨sp, pp, rp, hsp, hpp, hrp, hg⟩ := buildItem_get form item h "mapCrs"
    rw [hg]
    rw [intListEntry_get_ne hsp (by decide), intListEntry_get_ne hpp (by decide),
      intListEntry_get_ne hrp (by decide)]
    by_cases ht : form.mapCrs = "" <;> simp [ht]
  · obtain ⟨sp, pp, rp, hsp, hpp, hrp, hg⟩ :=
      buildItem_get form item h "additionalMouseCrs"
    rw [hg]
    rw [intListEntry_get_ne hsp (by decide), intListEntry_get_ne hpp (by decide),
      intListEntry_get_ne hrp (by decide)]
    by_cases ht : form.additionalMouseCrs = "" <;> simp [ht]
  · obtain ⟨sp, pp, rp, hsp, hpp, hrp, hg⟩ := buildItem_get form item h "scales"
    rw [hg]
    rw [intListEntry_get_ne hpp (by decide), intListEntry_get_ne hrp (by decide)]
    simpa using intListEntry_isSome hsp
  · obtain ⟨sp, pp, rp, hsp, hpp, hrp, hg⟩ := buildItem_get form item h "printScales"
    rw [hg]
    rw [intListEntry_get_ne hsp (by decide), intListEntry_get_ne hrp (by decide)]
    simpa using intListEntry_isSome hpp
  · obtain ⟨sp, pp, rp, hsp, hpp, hrp, hg⟩ :=
      buildItem_get form item h "printResolutions"
    rw [hg]
    rw [intListEntry_get_ne hsp (by decide), intListEntry_get_ne hpp (by decide)]
    simpa using intListEntry_isSome hrp
  · obtain ⟨sp, pp, rp, hsp, hpp, hrp, hg⟩ :=
      buildItem_get form item h "collapseLayerGroupsBelowLevel"
    rw [hg]
    rw [intListEntry_get_ne hsp (by decide), intListEntry_get_ne hpp (by decide),
      intListEntry_get_ne hrp (by decide)]
    by_cases hc : ∃ n, form.collapseLayerGroupsBelowLevel = some n ∧ n ≠ 0 <;>
      simp [hc]

theorem buildItem_keys_witness :
    buildItem
        { url := "x/a", title := "", thumbnail := "", attribution := "",
          attributionUrl := "", format := "", mapCrs := "",
          additionalMouseCrs := "", scales := "", printScales := "",
          printResolutions := "", searchProviders := "",
          collapseLayerGroupsBelowLevel := none, default := false,
          skipEmptyFeatureAttributes := false, backgroundLayers := [] }
      = some [("url", JVal.jstr "x/a"), ("attribution", JVal.jstr ""),
          ("default", JVal.jbool false),
          ("skipEmptyFeatureAttributes", JVal.jbool false),
          ("searchProviders", JVal.jstrs []),
          ("backgroundLayers", JVal.jbgs [])]
    ∧ itemGet [("url", JVal.jstr "x/a"), ("attribution", JVal.jstr ""),
          ("default", JVal.jbool false),
          ("skipEmptyFeatureAttributes", JVal.jbool false),
          ("searchProviders", JVal.jstrs []),
          ("backgroundLayers", JVal.jbgs [])] "url" = some (JVal.jstr "x/a") :=
  ⟨rfl,
   (buildItem_keys
     ⟨"x/a", "", "", "", "", "", "", "", "", "", "", "", none, false, false, []⟩
     _ rfl).1⟩

/-- Claim C6 (counterexample): the update path looks the paired row up by
name only, without the `map` type filter.  With a `layer` row named "a"
ordered before the `map` row named "a", updating the theme whose prior url
basename is "a" to url "x/b" renames the LAYER row, and afterwards no `map`
resource named "b" exists — the claimed 1:1 map-resource correspondence is
broken. -/
theorem update_renames_nonmap_counterexample :
    (create_or_update_theme
        { items := [[("url", JVal.jstr "x/a")]], groups := [] }
        [⟨1, "layer", "a", some 9⟩, ⟨2, "map", "a", none⟩]
        (some [("url", JVal.jstr "x/a")])
        ⟨"x/b", "", "", "", "", "", "", "", "", "", "", "", none, false, false, []⟩
        0 none 5).map Prod.snd
      = some [⟨1, "layer", "b", some 9⟩, ⟨2, "map", "a", none⟩]
    ∧ ¬ ∃ r ∈ [(⟨1, "layer", "b", some 9⟩ : Resource), ⟨2, "map", "a", none⟩],
        r.type = "map" ∧ r.name = "b" :=
  ⟨rfl, by decide⟩

theorem renameFirst_not_found (db : List Resource) (o n : String)
    (h : ∀ r ∈ db, r.name ≠ o) : renameFirst db o n = db := by
  induction db with
  | nil => rfl
  | cons r rest ih =>
    have h1 : (r.name == o) = false := by
      simpa using h r (List.mem_cons_self r rest)
    simp only [renameFirst, h1, Bool.false_eq_true, if_false, List.cons.injEq,
      true_and]
    exact ih (fun q hq => h q (List.mem_cons_of_mem _ hq))

theorem renameFirst_found (pre : List Resource) (r : Resource)
    (post : List Resource) (o n : String) (hr : r.name = o)
    (hpre : ∀ q ∈ pre, q.name ≠ o) :
    renameFirst (pre ++ r :: post) o n = pre ++ { r with name := n } :: post := by
  induction pre with
  | nil => simp [renameFirst, hr]
  | cons q rest ih =>
    have h1 : (q.name == o) = false := by
      simpa using hpre q (List.mem_cons_self _ _)
    simp only [List.cons_append, renameFirst, h1, Bool.false_eq_true, if_false,
      List.cons.injEq, true_and]
    exact ih (fun q' hq => hpre q' (List.mem_cons_of_mem _ hq))

theorem deleteFirstMap_not_found (db : List Resource) (nm : String)
    (h : ∀ r ∈ db, ¬(r.type = "map" ∧ r.name = nm)) :
    deleteFirstMap db nm = db := by
  induction db with
  | nil => rfl
  | cons r rest ih =>
    have h1 : (r.type == "map" && r.name == nm) = false := by
      have := h r (List.mem_cons_self r rest)
      simp only [Bool.and_eq_false_iff, beq_eq_false_iff_ne, ne_eq]
      tauto
    simp only [deleteFirstMap, h1, Bool.false_eq_true, if_false,
      List.cons.injEq, true_and]
    exact ih (fun q hq => h q (List.mem_cons_of_mem _ hq))

theorem deleteFirstMap_found (pre : List Resource) (r : Resource)
    (post : List Resource) (nm : String) (hrt : r.type = "map")
    (hrn : r.name = nm)
    (hpre : ∀ q ∈ pre, ¬(q.type = "map" ∧ q.name = nm)) :
    deleteFirstMap (pre ++ r :: post) nm = pre ++ post := by
  induction pre with
  | nil => simp [deleteFirstMap, hrt, hrn]
  | cons q rest ih =>
    have h1 : (q.type == "map" && q.name == nm) = false := by
      have := hpre q (List.mem_cons_self _ _)
      simp only [Bool.and_eq_false_iff, beq_eq_false_iff_ne, ne_eq]
      tauto
    simp only [List.cons_append, deleteFirstMap, h1, Bool.false_eq_true,
      if_false, List.cons.injEq, true_and]
    exact ih (fun q' hq => hpre q' (List.mem_cons_of_mem _ hq))

/-- Claim C6 (amended): create inserts a `map` resource named after the new
url basename; update renames the FIRST resource row — of any type, since the
lookup filters by name only — whose name equals the prior url basename
(no-op when no row matches); delete removes the first `map`-typed row named
after the deleted item's url basename (no-op when absent).  All other rows
are unchanged and keep their order. -/
theorem theme_resource_sync (cfg : ThemesConfig) (db : List Resource)
    (form : ThemeFormData) (tid newId : Nat) (gid : Option Nat) :
    (∀ out, create_or_update_theme cfg db none form tid gid newId = some out →
        out.2 = db ++ [{ id := newId, type := "map",
                         name := url_basename form.url, parent_id := none }])
    ∧ (∀ theme out u,
        create_or_update_theme cfg db (some theme) form tid gid newId = some out →
        theme ≠ [] →
        (themeAt cfg tid gid).bind (fun it => itemGet it "url")
          = some (JVal.jstr u) →
        ((∀ r ∈ db, r.name ≠ url_basename u) → out.2 = db)
        ∧ (∀ pre r post, db = pre ++ r :: post →
            r.name = url_basename u →
            (∀ q ∈ pre, q.name ≠ url_basename u) →
            out.2 = pre ++ { r with name := url_basename form.url } :: post))
    ∧ (∀ out u, delete_theme cfg db tid gid = some out →
        (themeAt cfg tid gid).bind (fun it => itemGet it "url")
          = some (JVal.jstr u) →
        ((∀ r ∈ db, ¬(r.type = "map" ∧ r.name = url_basename u)) → out.2 = db)
        ∧ (∀ pre r post, db = pre ++ r :: post →
            r.type = "map" → r.name = url_basename u →
            (∀ q ∈ pre, ¬(q.type = "map" ∧ q.name = url_basename u)) →
            out.2 = pre ++ post)) := by
  refine ⟨?_, ?_, ?_⟩
  · intro out h
    rcases gid with _ | g
    · rw [create_or_update_theme] at h
      simp only [Option.bind_eq_bind, Option.bind_eq_some, Option.pure_def,
        Option.some.injEq, List.isEmpty_nil, Bool.not_false, if_false,
        Bool.false_eq_true] at h
      obtain ⟨item, hitem, h⟩ := h
      rw [← h]
    · rw [create_or_update_theme] at h
      simp only [Option.bind_eq_bind, Option.bind_eq_some, Option.pure_def,
        Option.some.injEq, List.isEmpty_nil, Bool.not_false, if_false,
        Bool.false_eq_true] at h
      obtain ⟨item, hitem, grp, hgrp, h⟩ := h
      rw [← h]
  · intro theme out u h hne hurl
    have hemp : theme.isEmpty = false := by
      rw [List.isEmpty_eq_false]
      exact hne
    rcases gid with _ | g
    · rw [create_or_update_theme] at h
      simp only [Option.bind_eq_bind, Option.bind_eq_some, Option.pure_def,
        Option.some.injEq, hemp, Bool.not_false, if_true] at h
      obtain ⟨item, hitem, old, hold, oldUrl, holdUrl, s, hs, h⟩ := h
      rcases oldUrl with us | b | z | li | ls | lb <;>
        simp only [Option.some.injEq] at hs
      case jbool => cases hs
      case jint => cases hs
      case jints => cases hs
      case jstrs => cases hs
      case jbgs => cases hs
      subst hs
      rw [themeAt] at hurl
      rw [hold] at hurl
      simp only [Option.some_bind, holdUrl, Option.some.injEq,
        JVal.jstr.injEq] at hurl
      subst hurl
      rw [← h]
      constructor
      · intro hnone
        exact renameFirst_not_found db _ _ hnone
      · intro pre r post hdb hr hpre
        subst hdb
        exact renameFirst_found pre r post _ _ hr hpre
    · rw [create_or_update_theme] at h
      simp only [Option.bind_eq_bind, Option.bind_eq_some, Option.pure_def,
        Option.some.injEq, hemp, Bool.not_false, if_true] at h
      obtain ⟨item, hitem, grp, hgrp, old, hold, oldUrl, holdUrl, s, hs, h⟩ := h
      rcases oldUrl with us | b | z | li | ls | lb <;>
        simp only [Option.some.injEq] at hs
      case jbool => cases hs
      case jint => cases hs
      case jints => cases hs
      case jstrs => cases hs
      case jbgs => cases hs
      subst hs
      rw [themeAt] at hurl
      simp only [Option.bind_eq_bind, hgrp, Option.some_bind, hold,
        holdUrl, Option.some.injEq, JVal.jstr.injEq] at hurl
      subst hurl
      rw [← h]
      constructor
      · intro hnone
        exact renameFirst_not_found db _ _ hnone
      · intro pre r post hdb hr hpre
        subst hdb
        exact renameFirst_found pre r post _ _ hr hpre
  · intro out u h hurl
    rcases gid with _ | g
    · rw [delete_theme] at h
      simp only [Option.bind_eq_bind, Option.bind_eq_some, Option.pure_def,
        Option.some.injEq] at h
      obtain ⟨it, hit, uv, huv, us, hus, h⟩ := h
      rcases uv with s | b | z | li | ls | lb <;>
        simp only [Option.some.injEq] at hus
      case jbool => cases hus
      case jint => cases hus
      case jints => cases hus
      case jstrs => cases hus
      case jbgs => cases hus
      subst hus
      rw [themeAt] at hurl
      rw [hit] at hurl
      simp only [Option.some_bind, huv, Option.some.injEq,
        JVal.jstr.injEq] at hurl
      subst hurl
      rw [← h]
      constructor
      · intro hnone
        exact deleteFirstMap_not_found db _ hnone
      · intro pre r post hdb hrt hrn hpre
        subst hdb
        exact deleteFirstMap_found pre r post _ hrt hrn hpre
    · rw [delete_theme] at h
      simp only [Option.bind_eq_bind, Option.bind_eq_some, Option.pure_def,
        Option.some.injEq] at h
      obtain ⟨grp, hgrp, it, hit, uv, huv, us, hus, h⟩ := h
      rcases uv with s | b | z | li | ls | lb <;>
        simp only [Option.some.injEq] at hus
      case jbool => cases hus
      case jint => cases hus
      case jints => cases hus
      case jstrs => cases hus
      case jbgs => cases hus
      subst hus
      rw [themeAt] at hurl
      simp only [Option.bind_eq_bind, hgrp, Option.some_bind, hit,
        huv, Option.some.injEq, JVal.jstr.injEq] at hurl
      subst hurl
      rw [← h]
      constructor
      · intro hnone
        exact deleteFirstMap_not_found db _ hnone
      · intro pre r post hdb hrt hrn hpre
        subst hdb
        exact deleteFirstMap_found pre r post _ hrt hrn hpre

theorem theme_resource_sync_witness :
    (({ items := [[("url", JVal.jstr "m/new"), ("attribution", JVal.jstr ""),
          ("default", JVal.jbool false),
          ("skipEmptyFeatureAttributes", JVal.jbool false),
          ("searchProviders", JVal.jstrs []),
          ("backgroundLayers", JVal.jbgs [])]], groups := [] },
      [(⟨7, "map", "new", none⟩ : Resource)]) : ThemesConfig × List Resource).2
      = [] ++ [{ id := 7, type := "map", name := url_basename "m/new",
                 parent_id := none }] :=
  (theme_resource_sync { items := [], groups := [] } []
    ⟨"m/new", "", "", "", "", "", "", "", "", "", "", "", none, false, false, []⟩
    0 7 none).1 _ rfl

theorem index_pagination_correct_witness :
    (0 < 2 ∧ 1 ≤ 2)
    ∧ (num_pages ([10, 20, 30] : List Nat).length 2
          = (([10, 20, 30] : List Nat).length + 2 - 1) / 2
      ∧ (page_slice ([10, 20, 30] : List Nat) 2 2).length ≤ 2
      ∧ (page_slice ([10, 20, 30] : List Nat) 2 2).length
          = min 2 (([10, 20, 30] : List Nat).length - (2 - 1) * 2)
      ∧ (∀ i : Nat, i < 2 →
          (page_slice ([10, 20, 30] : List Nat) 2 2)[i]?
            = ([10, 20, 30] : List Nat)[(2 - 1) * 2 + i]?)
      ∧ (num_pages ([10, 20, 30] : List Nat).length 2 < 2 →
          page_slice ([10, 20, 30] : List Nat) 2 2 = [])) :=
  ⟨⟨by decide, by decide⟩,
   index_pagination_correct [10, 20, 30] 2 2 (by decide) (by decide)⟩

/-! ## `ThemesController.create_form` (form population from a theme) -/

/-- The `.data` state of the `ThemeForm` fields while `create_form`
populates them from a theme; unassigned fields are `none` (WTForms
defaults).  Fields hold arbitrary JSON values, as Python assigns the raw
theme values. -/
structure ThemeFormState where
  url : Option JVal
  title : Option JVal
  thumbnail : Option JVal
  attribution : Option JVal
  attributionUrl : Option JVal
  default : Option JVal
  format : Option JVal
  mapCrs : Option JVal
  additionalMouseCrs : Option JVal
  scales : Option JVal
  printScales : Option JVal
  printResolutions : Option JVal
  collapseLayerGroupsBelowLevel : Option JVal
  skipEmptyFeatureAttributes : Option JVal
  searchProviders : Option JVal
  backgroundLayers : List BgForm
deriving DecidableEq

/-- `", ".join(map(str, v))` for a list-valued theme field; a non-list
value is treated as a Python TypeError (`none`). -/
def joinList (v : JVal) : Option String :=
  match v with
  | JVal.jints l => some (String.intercalate ", " (l.map toString))
  | JVal.jstrs l => some (String.intercalate ", " l)
  | _ => none

/-- `if "title" in theme: form.title.data = theme["title"]`. -/
def cf_title (theme : ThemeItem) (s : ThemeFormState) : ThemeFormState :=
  match itemGet theme "title" with
  | some v => { s with title := some v }
  | none => s

/-- `if "thumbnail" in theme: form.thumbnail.data = theme["thumbnail"]`. -/
def cf_thumbnail (theme : ThemeItem) (s : ThemeFormState) : ThemeFormState :=
  match itemGet theme "thumbnail" with
  | some v => { s with thumbnail := some v }
  | none => s

/-- `if "attribution" in theme: form.attribution.data = theme["attribution"]`. -/
def cf_attribution (theme : ThemeItem) (s : ThemeFormState) : ThemeFormState :=
  match itemGet theme "attribution" with
  | some v => { s with attribution := some v }
  | none => s

/-- `if "attributionUrl" in theme: form.attribution.data =
theme["attributionUrl"]` — note the assignment goes to the `attribution`
field. -/
def cf_attributionUrl (theme : ThemeItem) (s : ThemeFormState) : ThemeFormState :=
  match itemGet theme "attributionUrl" with
  | some v => { s with attribution := some v }
  | none => s

/-- `if "default" in theme: form.default.data = theme["default"]`. -/
def cf_default (theme : ThemeItem) (s : ThemeFormState) : ThemeFormState :=
  match itemGet theme "default" with
  | some v => { s with default := some v }
  | none => s

/-- `if "format" in theme: form.format.data = theme["format"]`. -/
def cf_format (theme : ThemeItem) (s : ThemeFormState) : ThemeFormState :=
  match itemGet theme "format" with
  | some v => { s with format := some v }
  | none => s

/-- `if "mapCrs" in theme: form.mapCrs.data = theme["mapCrs"]`. -/
def cf_mapCrs (theme : ThemeItem) (s : ThemeFormState) : ThemeFormState :=
  match itemGet theme "mapCrs" with
  | some v => { s with mapCrs := some v }
  | none => s

/-- `if "additionalMouseCrs" in theme: form.additionalMouseCrs.data =
", ".join(map(str, theme["additionalMouseCrs"]))`. -/
def cf_additionalMouseCrs (theme : ThemeItem) (s : ThemeFormState) :
    Option ThemeFormState :=
  match itemGet theme "additionalMouseCrs" with
  | some v => (joinList v).map
      (fun str => { s with additionalMouseCrs := some (JVal.jstr str) })
  | none => some s

/-- `if "scales" in theme: form.scales.data = ", ".join(map(str,
theme["scales"]))`. -/
def cf_scales (theme : ThemeItem) (s : ThemeFormState) : Option ThemeFormState :=
  match itemGet theme "scales" with
  | some v => (joinList v).map
      (fun str => { s with scales := some (JVal.jstr str) })
  | none => some s

/-- `if "printScales" in theme: ...`. -/
def cf_printScales (theme : ThemeItem) (s : ThemeFormState) :
    Option ThemeFormState :=
  match itemGet theme "printScales" with
  | some v => (joinList v).map
      (fun str => { s with printScales := some (JVal.jstr str) })
  | none => some s

/-- `if "printResolutions" in theme: ...`. -/
def cf_printResolutions (theme : ThemeItem) (s : ThemeFormState) :
    Option ThemeFormState :=
  match itemGet theme "printResolutions" with
  | some v => (joinList v).map
      (fun str => { s with printResolutions := some (JVal.jstr str) })
  | none => some s

/-- `if "collapseLayerGroupsBelowLevel" in theme:
form.skipEmptyFeatureAttributes.data = theme["collapseLayerGroupsBelowLevel"]`
— note the assignment goes to the `skipEmptyFeatureAttributes` field. -/
def cf_collapse (theme : ThemeItem) (s : ThemeFormState) : ThemeFormState :=
  match itemGet theme "collapseLayerGroupsBelowLevel" with
  | some v => { s with skipEmptyFeatureAttributes := some v }
  | none => s

/-- `if "skipEmptyFeatureAttributes" in theme:
form.skipEmptyFeatureAttributes.data = theme["skipEmptyFeatureAttributes"]`. -/
def cf_skipEmpty (theme : ThemeItem) (s : ThemeFormState) : ThemeFormState :=
  match itemGet theme "skipEmptyFeatureAttributes" with
  | some v => { s with skipEmptyFeatureAttributes := some v }
  | none => s

/-- `if "searchProviders" in theme: form.searchProviders.data =
", ".join(map(str, theme["searchProviders"]))`. -/
def cf_searchProviders (theme : ThemeItem) (s : ThemeFormState) :
    Option ThemeFormState :=
  match itemGet theme "searchProviders" with
  | some v => (joinList v).map
      (fun str => { s with searchProviders := some (JVal.jstr str) })
  | none => some s

/-- One `append_entry` record of the backgroundLayers loop, with defaults
`printLayer = ""` and `visibility = False` for absent keys. -/
def bgFormEntry (b : BgLayer) : BgForm :=
  { lname := b.name, printLayer := b.printLayer.getD "",
    visibility := b.visibility.getD false }

/-- `if "backgroundLayers" in theme: ... append_entry(...)`; iterating a
non-list raises (`none`). -/
def cf_backgroundLayers (theme : ThemeItem) (s : ThemeFormState) :
    Option ThemeFormState :=
  match itemGet theme "backgroundLayers" with
  | some (JVal.jbgs ls) => some { s with backgroundLayers := ls.map bgFormEntry }
  | some _ => none
  | none => some s

/-- `ThemesController.create_form` for a given theme: starts from
`ThemeForm(url=theme["url"])` and applies the population steps in source
order. -/
def create_form (theme : ThemeItem) : Option ThemeFormState := do
  let u ← itemGet theme "url"
  let s0 : ThemeFormState :=
    { url := some u, title := none, thumbnail := none, attribution := none,
      attributionUrl := none, default := none, format := none, mapCrs := none,
      additionalMouseCrs := none, scales := none, printScales := none,
      printResolutions := none, collapseLayerGroupsBelowLevel := none,
      skipEmptyFeatureAttributes := none, searchProviders := none,
      backgroundLayers := [] }
  let s7 := cf_mapCrs theme (cf_format theme (cf_default theme
    (cf_attributionUrl theme (cf_attribution theme
      (cf_thumbnail theme (cf_title theme s0))))))
  let s8 ← cf_additionalMouseCrs theme s7
  let s9 ← cf_scales theme s8
  let s10 ← cf_printScales theme s9
  let s11 ← cf_printResolutions theme s10
  let s13 := cf_skipEmpty theme (cf_collapse theme s11)
  let s14 ← cf_searchProviders theme s13
  cf_backgroundLayers theme s14

theorem cf_title_fields (theme : ThemeItem) (s : ThemeFormState) :
    (cf_title theme s).attribution = s.attribution
    ∧ (cf_title theme s).attributionUrl = s.attributionUrl
    ∧ (cf_title theme s).skipEmptyFeatureAttributes
        = s.skipEmptyFeatureAttributes := by
  unfold cf_title; cases itemGet theme "title" <;> exact ⟨rfl, rfl, rfl⟩

theorem cf_thumbnail_fields (theme : ThemeItem) (s : ThemeFormState) :
    (cf_thumbnail theme s).attribution = s.attribution
    ∧ (cf_thumbnail theme s).attributionUrl = s.attributionUrl
    ∧ (cf_thumbnail theme s).skipEmptyFeatureAttributes
        = s.skipEmptyFeatureAttributes := by
  unfold cf_thumbnail; cases itemGet theme "thumbnail" <;> exact ⟨rfl, rfl, rfl⟩

theorem cf_attribution_fields (theme : ThemeItem) (s : ThemeFormState) :
    (cf_attribution theme s).attributionUrl = s.attributionUrl
    ∧ (cf_attribution theme s).skipEmptyFeatureAttributes
        = s.skipEmptyFeatureAttributes := by
  unfold cf_attribution; cases itemGet theme "attribution" <;> exact ⟨rfl, rfl⟩

theorem cf_attributionUrl_fields (theme : ThemeItem) (s : ThemeFormState) :
    (cf_attributionUrl theme s).attributionUrl = s.attributionUrl
    ∧ (cf_attributionUrl theme s).skipEmptyFeatureAttributes
        = s.skipEmptyFeatureAttributes := by
  unfold cf_attributionUrl
  cases itemGet theme "attributionUrl" <;> exact ⟨rfl, rfl⟩

theorem cf_attributionUrl_set (theme : ThemeItem) (s : ThemeFormState)
    (v : JVal) (hv : itemGet theme "attributionUrl" = some v) :
    (cf_attributionUrl theme s).attribution = some v := by
  unfold cf_attributionUrl
  rw [hv]

theorem cf_attributionUrl_skip (theme : ThemeItem) (s : ThemeFormState)
    (hv : itemGet theme "attributionUrl" = none) :
    (cf_attributionUrl theme s).attribution = s.attribution := by
  unfold cf_attributionUrl
  rw [hv]

theorem cf_default_fields (theme : ThemeItem) (s : ThemeFormState) :
    (cf_default theme s).attribution = s.attribution
    ∧ (cf_default theme s).attributionUrl = s.attributionUrl
    ∧ (cf_default theme s).skipEmptyFeatureAttributes
        = s.skipEmptyFeatureAttributes := by
  unfold cf_default; cases itemGet theme "default" <;> exact ⟨rfl, rfl, rfl⟩

theorem cf_format_fields (theme : ThemeItem) (s : ThemeFormState) :
    (cf_format theme s).attribution = s.attribution
    ∧ (cf_format theme s).attributionUrl = s.attributionUrl
    ∧ (cf_format theme s).skipEmptyFeatureAttributes
        = s.skipEmptyFeatureAttributes := by
  unfold cf_format; cases itemGet theme "format" <;> exact ⟨rfl, rfl, rfl⟩

theorem cf_mapCrs_fields (theme : ThemeItem) (s : ThemeFormState) :
    (cf_mapCrs theme s).attribution = s.attribution
    ∧ (cf_mapCrs theme s).attributionUrl = s.attributionUrl
    ∧ (cf_mapCrs theme s).skipEmptyFeatureAttributes
        = s.skipEmptyFeatureAttributes := by
  unfold cf_mapCrs; cases itemGet theme "mapCrs" <;> exact ⟨rfl, rfl, rfl⟩

theorem cf_additionalMouseCrs_fields (theme : ThemeItem) (s s' : ThemeFormState)
    (h : cf_additionalMouseCrs theme s = some s') :
    s'.attribution = s.attribution ∧ s'.attributionUrl = s.attributionUrl
    ∧ s'.skipEmptyFeatureAttributes = s.skipEmptyFeatureAttributes := by
  unfold cf_additionalMouseCrs at h
  cases hv : itemGet theme "additionalMouseCrs"
  · rw [hv] at h; cases h; exact ⟨rfl, rfl, rfl⟩
  · rw [hv, Option.map_eq_some'] at h
    obtain ⟨str, _, hs⟩ := h
    rw [← hs]
    exact ⟨rfl, rfl, rfl⟩

theorem cf_scales_fields (theme : ThemeItem) (s s' : ThemeFormState)
    (h : cf_scales theme s = some s') :
    s'.attribution = s.attribution ∧ s'.attributionUrl = s.attributionUrl
    ∧ s'.skipEmptyFeatureAttributes = s.skipEmptyFeatureAttributes := by
  unfold cf_scales at h
  cases hv : itemGet theme "scales"
  · rw [hv] at h; cases h; exact ⟨rfl, rfl, rfl⟩
  · rw [hv, Option.map_eq_some'] at h
    obtain ⟨str, _, hs⟩ := h
    rw [← hs]
    exact ⟨rfl, rfl, rfl⟩

theorem cf_printScales_fields (theme : ThemeItem) (s s' : ThemeFormState)
    (h : cf_printScales theme s = some s') :
    s'.attribution = s.attribution ∧ s'.attributionUrl = s.attributionUrl
    ∧ s'.skipEmptyFeatureAttributes = s.skipEmptyFeatureAttributes := by
  unfold cf_printScales at h
  cases hv : itemGet theme "printScales"
  · rw [hv] at h; cases h; exact ⟨rfl, rfl, rfl⟩
  · rw [hv, Option.map_eq_some'] at h
    obtain ⟨str, _, hs⟩ := h
    rw [← hs]
    exact ⟨rfl, rfl, rfl⟩

theorem cf_printResolutions_fields (theme : ThemeItem) (s s' : ThemeFormState)
    (h : cf_printResolutions theme s = some s') :
    s'.attribution = s.attribution ∧ s'.attributionUrl = s.attributionUrl
    ∧ s'.skipEmptyFeatureAttributes = s.skipEmptyFeatureAttributes := by
  unfold cf_printResolutions at h
  cases hv : itemGet theme "printResolutions"
  · rw [hv] at h; cases h; exact ⟨rfl, rfl, rfl⟩
  · rw [hv, Option.map_eq_some'] at h
    obtain ⟨str, _, hs⟩ := h
    rw [← hs]
    exact ⟨rfl, rfl, rfl⟩

theorem cf_collapse_fields (theme : ThemeItem) (s : ThemeFormState) :
    (cf_collapse theme s).attribution = s.attribution
    ∧ (cf_collapse theme s).attributionUrl = s.attributionUrl := by
  unfold cf_collapse
  cases itemGet theme "collapseLayerGroupsBelowLevel" <;> exact ⟨rfl, rfl⟩

theorem cf_skipEmpty_fields (theme : ThemeItem) (s : ThemeFormState) :
    (cf_skipEmpty theme s).attribution = s.attribution
    ∧ (cf_skipEmpty theme s).attributionUrl = s.attributionUrl := by
  unfold cf_skipEmpty
  cases itemGet theme "skipEmptyFeatureAttributes" <;> exact ⟨rfl, rfl⟩

theorem cf_searchProviders_fields (theme : ThemeItem) (s s' : ThemeFormState)
    (h : cf_searchProviders theme s = some s') :
    s'.attribution = s.attribution ∧ s'.attributionUrl = s.attributionUrl
    ∧ s'.skipEmptyFeatureAttributes = s.skipEmptyFeatureAttributes := by
  unfold cf_searchProviders at h
  cases hv : itemGet theme "searchProviders"
  · rw [hv] at h; cases h; exact ⟨rfl, rfl, rfl⟩
  · rw [hv, Option.map_eq_some'] at h
    obtain ⟨str, _, hs⟩ := h
    rw [← hs]
    exact ⟨rfl, rfl, rfl⟩

theorem cf_backgroundLayers_fields (theme : ThemeItem) (s s' : ThemeFormState)
    (h : cf_backgroundLayers theme s = some s') :
    s'.attribution = s.attribution ∧ s'.attributionUrl = s.attributionUrl
    ∧ s'.skipEmptyFeatureAttributes = s.skipEmptyFeatureAttributes := by
  unfold cf_backgroundLayers at h
  cases hv : itemGet theme "backgroundLayers"
  · rw [hv] at h; cases h; exact ⟨rfl, rfl, rfl⟩
  · rename_i v
    rw [hv] at h
    rcases v with x | x | x | x | x | x
    · cases h
    · cases h
    · cases h
    · cases h
    · cases h
    · cases h
      exact ⟨rfl, rfl, rfl⟩

theorem cf_skipEmpty_set (theme : ThemeItem) (s : ThemeFormState) (v : JVal)
    (hv : itemGet theme "skipEmptyFeatureAttributes" = some v) :
    (cf_skipEmpty theme s).skipEmptyFeatureAttributes = some v := by
  unfold cf_skipEmpty
  rw [hv]

theorem cf_skipEmpty_skip (theme : ThemeItem) (s : ThemeFormState)
    (hn : itemGet theme "skipEmptyFeatureAttributes" = none) :
    (cf_skipEmpty theme s).skipEmptyFeatureAttributes
      = s.skipEmptyFeatureAttributes := by
  unfold cf_skipEmpty
  rw [hn]

theorem cf_collapse_set (theme : ThemeItem) (s : ThemeFormState) (v : JVal)
    (hv : itemGet theme "collapseLayerGroupsBelowLevel" = some v) :
    (cf_collapse theme s).skipEmptyFeatureAttributes = some v := by
  unfold cf_collapse
  rw [hv]

/-- Claim C10 (counterexample): when a theme carries BOTH a
`collapseLayerGroupsBelowLevel` key and a `skipEmptyFeatureAttributes` key,
the later `skipEmptyFeatureAttributes` assignment overwrites the collapse
value, so the form's skipEmptyFeatureAttributes field does NOT hold the
theme's collapseLayerGroupsBelowLevel value. -/
theorem create_form_collapse_overwritten :
    (create_form [("url", JVal.jstr "u"),
        ("collapseLayerGroupsBelowLevel", JVal.jint 2),
        ("skipEmptyFeatureAttributes", JVal.jbool false)]).map
      (fun st => st.skipEmptyFeatureAttributes)
      = some (some (JVal.jbool false))
    ∧ itemGet [("url", JVal.jstr "u"),
        ("collapseLayerGroupsBelowLevel", JVal.jint 2),
        ("skipEmptyFeatureAttributes", JVal.jbool false)]
        "collapseLayerGroupsBelowLevel" = some (JVal.jint 2)
    ∧ JVal.jbool false ≠ JVal.jint 2 :=
  ⟨rfl, rfl, by decide⟩

/-- Claim C10 (amended): populating the edit form assigns the theme's
attributionUrl value to the form's ATTRIBUTION field (overwriting any value
set from the attribution key), and the form's attributionUrl field is never
populated; the theme's collapseLayerGroupsBelowLevel value is assigned to
the form's skipEmptyFeatureAttributes field, but is itself overwritten by
the skipEmptyFeatureAttributes key when the theme has one — so it survives
only when that key is absent. -/
theorem create_form_crossed_fields (theme : ThemeItem) (st : ThemeFormState)
    (h : create_form theme = some st) :
    (∀ v, itemGet theme "attributionUrl" = some v → st.attribution = some v)
    ∧ st.attributionUrl = none
    ∧ (∀ v, itemGet theme "skipEmptyFeatureAttributes" = some v →
        st.skipEmptyFeatureAttributes = some v)
    ∧ (∀ v, itemGet theme "collapseLayerGroupsBelowLevel" = some v →
        itemGet theme "skipEmptyFeatureAttributes" = none →
        st.skipEmptyFeatureAttributes = some v) := by
  rw [create_form] at h
  simp only [Option.bind_eq_bind, Option.bind_eq_some] at h
  obtain ⟨u, hu, s8, h8, s9, h9, s10, h10, s11, h11, s14, h14, h15⟩ := h
  have f15 := cf_backgroundLayers_fields theme s14 st h15
  have f14 := cf_searchProviders_fields theme _ s14 h14
  have f11 := cf_printResolutions_fields theme s10 s11 h11
  have f10 := cf_printScales_fields theme s9 s10 h10
  have f9 := cf_scales_fields theme s8 s9 h9
  have f8 := cf_additionalMouseCrs_fields theme _ s8 h8
  refine ⟨?_, ?_, ?_, ?_⟩
  · intro v hv
    rw [f15.1, f14.1, (cf_skipEmpty_fields theme _).1,
      (cf_collapse_fields theme _).1, f11.1, f10.1, f9.1, f8.1,
      (cf_mapCrs_fields theme _).1, (cf_format_fields theme _).1,
      (cf_default_fields theme _).1, cf_attributionUrl_set theme _ v hv]
  · rw [f15.2.1, f14.2.1, (cf_skipEmpty_fields theme _).2,
      (cf_collapse_fields theme _).2, f11.2.1, f10.2.1, f9.2.1, f8.2.1,
      (cf_mapCrs_fields theme _).2.1, (cf_format_fields theme _).2.1,
      (cf_default_fields theme _).2.1, (cf_attributionUrl_fields theme _).1,
      (cf_attribution_fields theme _).1, (cf_thumbnail_fields theme _).2.1,
      (cf_title_fields theme _).2.1]
  · intro v hv
    rw [f15.2.2, f14.2.2, cf_skipEmpty_set theme _ v hv]
  · intro v hv hn
    rw [f15.2.2, f14.2.2, cf_skipEmpty_skip theme _ hn,
      cf_collapse_set theme _ v hv]

theorem create_form_crossed_fields_witness :
    ({ url := some (JVal.jstr "u"), title := none, thumbnail := none,
       attribution := some (JVal.jstr "A"), attributionUrl := none,
       default := none, format := none, mapCrs := none,
       additionalMouseCrs := none, scales := none, printScales := none,
       printResolutions := none, collapseLayerGroupsBelowLevel := none,
       skipEmptyFeatureAttributes := some (JVal.jint 2),
       searchProviders := none,
       backgroundLayers := [] } : ThemeFormState).attribution
      = some (JVal.jstr "A") :=
  (create_form_crossed_fields
    [("url", JVal.jstr "u"), ("attributionUrl", JVal.jstr "A"),
     ("collapseLayerGroupsBelowLevel", JVal.jint 2)]
    { url := some (JVal.jstr "u"), title := none, thumbnail := none,
      attribution := some (JVal.jstr "A"), attributionUrl := none,
      default := none, format := none, mapCrs := none,
      additionalMouseCrs := none, scales := none, printScales := none,
      printResolutions := none, collapseLayerGroupsBelowLevel := none,
      skipEmptyFeatureAttributes := some (JVal.jint 2),
      searchProviders := none, backgroundLayers := [] }
    rfl).1 (JVal.jstr "A") rfl

/-! ## Cascade delete (ResourcesController.destroy_resource_cascaded)

The ORM relationship `resource.children` is the set of rows whose
`parent_id` equals the resource's id, evaluated against the current session
state.  The Python recursion terminates only on acyclic data, so the
embedding takes an explicit fuel bound. -/

/-- Ids of `resource.children` in the current database state. -/
def childIdsOf (db : List Resource) (rid : Nat) : List Nat :=
  (db.filter (fun r => r.parent_id == some rid)).map (·.id)

/-- `ResourcesController.destroy_resource_cascaded`: recursively delete the
children depth-first, then `session.delete(resource)`. -/
def destroy_resource_cascaded (fuel : Nat) (db : List Resource) (rid : Nat) :
    List Resource :=
  match fuel with
  | 0 => db
  | f + 1 =>
    let db1 := (childIdsOf db rid).foldl
      (fun d c => destroy_resource_cascaded f d c) db
    db1.filter (fun r => r.id != rid)

/-- Spec-side descendant test: walk the parent chain of `a` upward and
report whether it reaches `t` (with `a = t` included). -/
def isDescOf (fuel : Nat) (db : List Resource) (a t : Nat) : Bool :=
  if a == t then true
  else
    match fuel with
    | 0 => false
    | f + 1 =>
      match db.find? (fun r => r.id == a) with
      | none => false
      | some r =>
        match r.parent_id with
        | none => false
        | some p => isDescOf f db p t

/-- `Anc db a t`: following parent links from `a` inside `db` reaches `t`;
i.e. `a` is `t` itself or one of its descendants. -/
inductive Anc (db : List Resource) : Nat → Nat → Prop where
  | refl (a : Nat) : Anc db a a
  | step (r : Resource) (p t : Nat) (hr : r ∈ db) (hp : r.parent_id = some p)
      (h : Anc db p t) : Anc db r.id t

theorem Anc.trans {db : List Resource} {a b c : Nat} (h1 : Anc db a b)
    (h2 : Anc db b c) : Anc db a c := by
  induction h1 with
  | refl => exact h2
  | step r p t hr hp h ih => exact Anc.step r p c hr hp (ih h2)

/-- A depth function certifies acyclicity: every child is strictly deeper
than its parent. -/
def DepthOk (db : List Resource) (dep : Nat → Nat) : Prop :=
  ∀ r ∈ db, ∀ p, r.parent_id = some p → dep p < dep r.id

theorem anc_dep_le {db : List Resource} {dep : Nat → Nat}
    (hdep : DepthOk db dep) {a t : Nat} (h : Anc db a t) : dep t ≤ dep a := by
  induction h with
  | refl => exact Nat.le_refl _
  | step r p t hr hp h ih =>
    exact Nat.le_of_lt (Nat.lt_of_le_of_lt ih (hdep r hr p hp))

/-- With distinct ids, two rows with the same id are the same row. -/
theorem row_id_inj {db : List Resource} (hnd : (db.map (·.id)).Nodup)
    {r s : Resource} (hr : r ∈ db) (hs : s ∈ db) (h : r.id = s.id) : r = s :=
  List.inj_on_of_nodup_map hnd hr hs h

theorem find_id_eq {db : List Resource} (hnd : (db.map (·.id)).Nodup)
    {r : Resource} (hr : r ∈ db) :
    db.find? (fun q => q.id == r.id) = some r := by
  have hsome : (db.find? (fun q => q.id == r.id)).isSome := by
    rw [List.find?_isSome]
    exact ⟨r, hr, by simp⟩
  obtain ⟨s, hs⟩ := Option.isSome_iff_exists.mp hsome
  have hmem := List.mem_of_find?_eq_some hs
  have hid : s.id = r.id := by simpa using List.find?_some hs
  rw [hs, row_id_inj hnd hmem hr hid]

theorem isDescOf_sound {fuel : Nat} {db : List Resource} {a t : Nat}
    (h : isDescOf fuel db a t = true) : Anc db a t := by
  induction fuel generalizing a with
  | zero =>
    rw [isDescOf] at h
    by_cases hat : (a == t) = true
    · rw [beq_iff_eq] at hat
      subst hat
      exact Anc.refl a
    · rw [if_neg hat] at h
      cases h
  | succ f ih =>
    rw [isDescOf] at h
    by_cases hat : (a == t) = true
    · rw [beq_iff_eq] at hat
      subst hat
      exact Anc.refl a
    · rw [if_neg hat] at h
      cases hfind : db.find? (fun r => r.id == a) with
      | none => rw [hfind] at h; cases h
      | some r =>
        simp only [hfind] at h
        have hmem := List.mem_of_find?_eq_some hfind
        have hid : r.id = a := by simpa using List.find?_some hfind
        cases hpar : r.parent_id with
        | none =>
          simp only [hpar] at h
          cases h
        | some p =>
          simp only [hpar] at h
          have := ih h
          rw [← hid]
          exact Anc.step r p t hmem hpar this

theorem isDescOf_complete {db : List Resource} {dep : Nat → Nat}
    (hdep : DepthOk db dep) (hnd : (db.map (·.id)).Nodup) {a t : Nat}
    (h : Anc db a t) : ∀ fuel, dep a ≤ dep t + fuel →
    isDescOf fuel db a t = true := by
  induction h with
  | refl a =>
    intro fuel _
    rw [isDescOf.eq_def]
    simp
  | step r p t hr hp h ih =>
    intro fuel hfuel
    by_cases hat : (r.id == t) = true
    · rw [isDescOf.eq_def, if_pos hat]
    · have htlt : dep t ≤ dep p := anc_dep_le hdep h
      have hplt : dep p < dep r.id := hdep r hr p hp
      cases fuel with
      | zero => omega
      | succ f =>
        rw [isDescOf, if_neg hat]
        simp only [find_id_eq hnd hr, hp]
        exact ih f (by omega)

theorem anc_of_filter {db : List Resource} {q : Resource → Bool} {a t : Nat}
    (h : Anc (db.filter q) a t) : Anc db a t := by
  induction h with
  | refl a => exact Anc.refl a
  | step r p t hr hp h ih =>
    exact Anc.step r p t (List.mem_of_mem_filter hr) hp ih

theorem anc_filter_of_anc {db : List Resource} {q : Resource → Bool} {a t : Nat}
    (h : Anc db a t) :
    (∀ r ∈ db, Anc db a r.id → q r = true) → Anc (db.filter q) a t := by
  induction h with
  | refl a =>
    intro _
    exact Anc.refl a
  | step r p t hr hp h ih =>
    intro hs
    have hqr : q r = true := hs r hr (Anc.refl r.id)
    have hs' : ∀ r' ∈ db, Anc db p r'.id → q r' = true := by
      intro r' hr' hanc
      exact hs r' hr' (Anc.step r p r'.id hr hp hanc)
    exact Anc.step r p t (List.mem_filter.mpr ⟨hr, hqr⟩) hp (ih hs')

theorem anc_split {db : List Resource} {a t : Nat} (h : Anc db a t) :
    a = t ∨ ∃ c, Anc db a c ∧ ∃ rc ∈ db, rc.id = c ∧ rc.parent_id = some t := by
  induction h with
  | refl a => left; rfl
  | step r p t hr hp h ih =>
    rcases ih with rfl | ⟨c, hac, rc, hrc, hrcid, hrcp⟩
    · right
      exact ⟨r.id, Anc.refl r.id, r, hr, rfl, hp⟩
    · right
      exact ⟨c, Anc.step r p c hr hp hac, rc, hrc, hrcid, hrcp⟩

theorem mem_childIdsOf {db : List Resource} {rid c : Nat} :
    c ∈ childIdsOf db rid ↔ ∃ r ∈ db, r.parent_id = some rid ∧ r.id = c := by
  simp only [childIdsOf, List.mem_map, List.mem_filter, beq_iff_eq]
  constructor
  · rintro ⟨r, ⟨hr, hp⟩, hid⟩
    exact ⟨r, hr, hp, hid⟩
  · rintro ⟨r, hr, hp, hid⟩
    exact ⟨r, ⟨hr, hp⟩, hid⟩

theorem nodup_filter_ids {db : List Resource} (hnd : (db.map (·.id)).Nodup)
    (q : Resource → Bool) : ((db.filter q).map (·.id)).Nodup := by
  have hsub : ((db.filter q).map (·.id)).Sublist (db.map (·.id)) :=
    (List.filter_sublist db).map _
  exact List.Nodup.sublist hsub hnd

theorem list_any_congr {α : Type} {l : List α} {p q : α → Bool}
    (h : ∀ x ∈ l, p x = q x) : l.any p = l.any q := by
  induction l with
  | nil => rfl
  | cons x xs ih =>
    simp only [List.any_cons]
    rw [h x (List.mem_cons_self _ _),
      ih (fun y hy => h y (List.mem_cons_of_mem _ hy))]

theorem anc_inv {db : List Resource} {a t : Nat} (h : Anc db a t) :
    a = t ∨ ∃ r ∈ db, r.id = a ∧ ∃ p, r.parent_id = some p ∧ Anc db p t := by
  cases h with
  | refl => left; rfl
  | step r p t hr hp h' => right; exact ⟨r, hr, rfl, p, hp, h'⟩

/-- Main lemma for cascade delete: with distinct ids, a depth function
certifying acyclicity, and enough fuel, the recursive depth-first delete
leaves exactly the rows that are not descendants-or-self of the target,
in their original order. -/
theorem destroy_eq_filter :
    ∀ (fuel : Nat) (db : List Resource) (rid : Nat) (dep : Nat → Nat),
      (db.map (·.id)).Nodup → DepthOk db dep →
      (∀ r ∈ db, dep r.id < dep rid + fuel) →
      destroy_resource_cascaded fuel db rid
        = db.filter (fun r => !(isDescOf fuel db r.id rid)) := by
  intro fuel
  induction fuel with
  | zero =>
    intro db rid dep hnd hdep hfb
    rw [destroy_resource_cascaded]
    symm
    rw [List.filter_eq_self]
    intro r hr
    have hne : (r.id == rid) = false := by
      rw [beq_eq_false_iff_ne]
      intro he
      have := hfb r hr
      rw [he] at this
      omega
    rw [isDescOf]
    simp [hne]
  | succ f ih =>
    intro db rid dep hnd hdep hfb
    have FL : ∀ (cs : List Nat) (d : List Resource),
        (∀ c ∈ cs, dep rid < dep c) → ((d.map (·.id)).Nodup) →
        DepthOk d dep → (∀ r ∈ d, dep r.id < dep rid + (f + 1)) →
        cs.foldl (fun acc c => destroy_resource_cascaded f acc c) d
          = d.filter (fun r => !(cs.any (fun c => isDescOf f d r.id c))) := by
      intro cs
      induction cs with
      | nil =>
        intro d _ _ _ _
        simp
      | cons c cs' ihcs =>
        intro d hc hnd' hdep' hfb'
        have hrc : dep rid < dep c := hc c (List.mem_cons_self _ _)
        have hfbc : ∀ r ∈ d, dep r.id < dep c + f := by
          intro r hr
          have := hfb' r hr
          omega
        have hd1 := ih d c dep hnd' hdep' hfbc
        rw [List.foldl_cons, hd1]
        have hnd1 := nodup_filter_ids hnd' (fun r => !(isDescOf f d r.id c))
        have hdep1 : DepthOk (d.filter (fun r => !(isDescOf f d r.id c))) dep := by
          intro r hr p hp
          exact hdep' r (List.mem_of_mem_filter hr) p hp
        have hfb1 : ∀ r ∈ d.filter (fun r => !(isDescOf f d r.id c)),
            dep r.id < dep rid + (f + 1) := by
          intro r hr
          exact hfb' r (List.mem_of_mem_filter hr)
        have htail := ihcs (d.filter (fun r => !(isDescOf f d r.id c)))
          (fun c' hc' => hc c' (List.mem_cons_of_mem _ hc')) hnd1 hdep1 hfb1
        rw [htail, List.filter_filter]
        apply List.filter_congr
        intro r hr
        by_cases hdc : isDescOf f d r.id c = true
        · simp [hdc]
        · have hq1r : (!(isDescOf f d r.id c)) = true := by
            simp [hdc]
          have hrd1 : r ∈ d.filter (fun r => !(isDescOf f d r.id c)) :=
            List.mem_filter.mpr ⟨hr, hq1r⟩
          have hany : cs'.any (fun c' =>
                isDescOf f (d.filter (fun r => !(isDescOf f d r.id c))) r.id c')
              = cs'.any (fun c' => isDescOf f d r.id c') := by
            apply list_any_congr
            intro c' hc'
            have hbc' : dep rid < dep c' := hc c' (List.mem_cons_of_mem _ hc')
            rw [Bool.eq_iff_iff]
            constructor
            · intro h1
              have hanc := anc_of_filter (isDescOf_sound h1)
              refine isDescOf_complete hdep' hnd' hanc f ?_
              have := hfb' r hr
              omega
            · intro h1
              have hanc : Anc d r.id c' := isDescOf_sound h1
              have hancf : Anc (d.filter (fun r => !(isDescOf f d r.id c)))
                  r.id c' := by
                refine anc_filter_of_anc hanc ?_
                intro m hm hancm
                simp only [Bool.not_eq_true']
                rw [Bool.eq_false_iff]
                intro hmc
                have hancmc : Anc d m.id c := isDescOf_sound hmc
                have hrc2 : Anc d r.id c := Anc.trans hancm hancmc
                have : isDescOf f d r.id c = true := by
                  refine isDescOf_complete hdep' hnd' hrc2 f ?_
                  have := hfb' r hr
                  omega
                exact hdc this
              refine isDescOf_complete hdep1 hnd1 hancf f ?_
              have := hfb' r hr
              omega
          rw [hany]
          simp [hdc]
    have hcs : ∀ c ∈ childIdsOf db rid, dep rid < dep c := by
      intro c hcmem
      rw [mem_childIdsOf] at hcmem
      obtain ⟨r, hr, hp, hid⟩ := hcmem
      rw [← hid]
      exact hdep r hr rid hp
    simp only [destroy_resource_cascaded]
    rw [FL (childIdsOf db rid) db hcs hnd hdep hfb, List.filter_filter]
    apply List.filter_congr
    intro r hr
    by_cases hidr : (r.id == rid) = true
    · rw [isDescOf, if_pos hidr]
      simp [bne, hidr]
    · have hidr' : r.id ≠ rid := by simpa using hidr
      rw [isDescOf, if_neg hidr]
      simp only [find_id_eq hnd hr]
      have hbne : (r.id != rid) = true := by
        simp [bne, hidr]
      cases hpar : r.parent_id with
      | none =>
        have hanyf : (childIdsOf db rid).any
            (fun c => isDescOf f db r.id c) = false := by
          rw [Bool.eq_false_iff]
          intro hany
          rw [List.any_eq_true] at hany
          obtain ⟨c, hcmem, hcdesc⟩ := hany
          have hanc := isDescOf_sound hcdesc
          rw [mem_childIdsOf] at hcmem
          obtain ⟨rc, hrc, hrcp, hrcid⟩ := hcmem
          rcases anc_inv hanc with heq | ⟨r', hr', hr'id, p', hp', _⟩
          · have hrr : rc = r := row_id_inj hnd hrc hr (by rw [hrcid, heq])
            rw [← hrr, hrcp] at hpar
            cases hpar
          · have hrr : r' = r := row_id_inj hnd hr' hr hr'id
            rw [hrr, hpar] at hp'
            cases hp'
        rw [hanyf]
        simp [hbne]
      | some p =>
        have hkey : (childIdsOf db rid).any (fun c => isDescOf f db r.id c)
            = isDescOf f db p rid := by
          rw [Bool.eq_iff_iff]
          constructor
          · intro hany
            rw [List.any_eq_true] at hany
            obtain ⟨c, hcmem, hcdesc⟩ := hany
            have hanc := isDescOf_sound hcdesc
            rw [mem_childIdsOf] at hcmem
            obtain ⟨rc, hrc, hrcp, hrcid⟩ := hcmem
            have hcrid : Anc db c rid := by
              rw [← hrcid]
              exact Anc.step rc rid rid hrc hrcp (Anc.refl rid)
            have hrrid : Anc db r.id rid := Anc.trans hanc hcrid
            rcases anc_inv hrrid with heq | ⟨r', hr', hr'id, p', hp', hprid⟩
            · exact absurd heq hidr'
            · have hrr : r' = r := row_id_inj hnd hr' hr hr'id
              rw [hrr, hpar] at hp'
              cases hp'
              refine isDescOf_complete hdep hnd hprid f ?_
              have h1 := hfb r hr
              have h2 := hdep r hr p hpar
              omega
          · intro hp1
            have hprid : Anc db p rid := isDescOf_sound hp1
            have hrrid : Anc db r.id rid := Anc.step r p rid hr hpar hprid
            rcases anc_split hrrid with heq | ⟨c, hac, rc, hrc, hrcid, hrcp⟩
            · exact absurd heq hidr'
            · rw [List.any_eq_true]
              refine ⟨c, ?_, ?_⟩
              · rw [mem_childIdsOf]
                exact ⟨rc, hrc, hrcp, hrcid⟩
              · refine isDescOf_complete hdep hnd hac f ?_
                have h1 := hfb r hr
                have h2 : dep rid < dep c := by
                  rw [← hrcid]
                  exact hdep rc hrc rid hrcp
                omega
        rw [hkey]
        simp [hbne]

/-- Claim C2: on a resource tree with distinct ids whose parent links are
acyclic (certified by a depth function), with enough fuel for the recursion,
cascade delete removes exactly the target row and every one of its
descendants, and every other row is unchanged and keeps its original order
(the result is the filter of the original row list).  `isDescOf` is the
spec-side upward parent-walk descendant test and coincides with the
inductive descendant relation `Anc` on the rows of the database. -/
theorem destroy_resource_cascaded_correct (fuel : Nat) (db : List Resource)
    (rid : Nat) (dep : Nat → Nat) (hnd : (db.map (·.id)).Nodup)
    (hdep : DepthOk db dep) (hfb : ∀ r ∈ db, dep r.id < dep rid + fuel)
    (hpresent : ∃ r ∈ db, r.id = rid) :
    destroy_resource_cascaded fuel db rid
      = db.filter (fun r => !(isDescOf fuel db r.id rid))
    ∧ (∀ r ∈ db, (isDescOf fuel db r.id rid = true ↔ Anc db r.id rid))
    ∧ (∀ r ∈ db,
        (r ∈ destroy_resource_cascaded fuel db rid ↔ ¬ Anc db r.id rid)) := by
  have hiff : ∀ r ∈ db, (isDescOf fuel db r.id rid = true ↔ Anc db r.id rid) := by
    intro r hr
    constructor
    · exact isDescOf_sound
    · intro hanc
      refine isDescOf_complete hdep hnd hanc fuel ?_
      have := hfb r hr
      omega
  have heq := destroy_eq_filter fuel db rid dep hnd hdep hfb
  refine ⟨heq, hiff, ?_⟩
  intro r hr
  rw [heq, List.mem_filter]
  constructor
  · rintro ⟨_, hkeep⟩
    intro hanc
    have := (hiff r hr).mpr hanc
    rw [this] at hkeep
    cases hkeep
  · intro hanc
    refine ⟨hr, ?_⟩
    have : isDescOf fuel db r.id rid = false := by
      rw [Bool.eq_false_iff]
      intro ht
      exact hanc ((hiff r hr).mp ht)
    rw [this]
    rfl

theorem destroy_resource_cascaded_correct_witness :
    destroy_resource_cascaded 6
        [⟨1, "map", "a", none⟩, ⟨2, "layer", "b", some 1⟩,
         ⟨3, "layer", "c", some 2⟩, ⟨4, "map", "d", none⟩] 2
      = ([⟨1, "map", "a", none⟩, ⟨2, "layer", "b", some 1⟩,
          ⟨3, "layer", "c", some 2⟩,
          ⟨4, "map", "d", none⟩] : List Resource).filter
          (fun r => !(isDescOf 6
            [⟨1, "map", "a", none⟩, ⟨2, "layer", "b", some 1⟩,
             ⟨3, "layer", "c", some 2⟩, ⟨4, "map", "d", none⟩] r.id 2))
    ∧ destroy_resource_cascaded 6
        [⟨1, "map", "a", none⟩, ⟨2, "layer", "b", some 1⟩,
         ⟨3, "layer", "c", some 2⟩, ⟨4, "map", "d", none⟩] 2
      = [⟨1, "map", "a", none⟩, ⟨4, "map", "d", none⟩] := by
  constructor
  · exact (destroy_resource_cascaded_correct 6
      [⟨1, "map", "a", none⟩, ⟨2, "layer", "b", some 1⟩,
       ⟨3, "layer", "c", some 2⟩, ⟨4, "map", "d", none⟩] 2 (fun n => n)
      (by decide)
      (by
        intro r hr p hp
        fin_cases hr <;> simp_all <;> omega)
      (by decide) (by decide)).1
  · rfl

/-! ## Resource hierarchy view (ResourcesController.hierarchy)

The children query joins `resource_types` (dropping rows whose type has no
type row) and sorts by `(ResourceType.list_order, Resource.type,
Resource.name, Resource.id)`.  Since the key ends with the unique id, SQL's
ORDER BY determines a unique ordering, modelled by an insertion sort with a
total lexicographic comparison. -/

structure ResourceType where
  name : String
  description : String
  list_order : Int
deriving DecidableEq, Repr

structure Permission where
  resource_id : Nat
deriving DecidableEq, Repr

structure HierarchyItem where
  depth : Nat
  resource : Resource
  permissions : Bool
deriving DecidableEq, Repr

/-- Insert into a sorted list (the unique ORDER BY result). -/
def insertLE {α : Type} (le : α → α → Bool) (x : α) : List α → List α
  | [] => [x]
  | y :: ys => if le x y then x :: y :: ys else y :: insertLE le x ys

/-- Insertion sort with a total comparison. -/
def sortByLE {α : Type} (le : α → α → Bool) : List α → List α
  | [] => []
  | x :: xs => insertLE le x (sortByLE le xs)

theorem mem_insertLE {α : Type} (le : α → α → Bool) (x : α) (l : List α)
    (a : α) : a ∈ insertLE le x l ↔ a = x ∨ a ∈ l := by
  induction l with
  | nil => simp [insertLE]
  | cons y ys ih =>
    rw [insertLE]
    by_cases h : le x y = true
    · simp [h]
    · simp only [Bool.not_eq_true] at h
      simp only [h, Bool.false_eq_true, if_false, List.mem_cons, ih]
      tauto


theorem sorted_insertLE {α : Type} (le : α → α → Bool)
    (htot : ∀ a b, (le a b || le b a) = true)
    (htrans : ∀ a b c, le a b = true → le b c = true → le a c = true)
    (x : α) (l : List α) (hl : l.Pairwise (fun a b => le a b = true)) :
    (insertLE le x l).Pairwise (fun a b => le a b = true) := by
  induction l with
  | nil => simp [insertLE]
  | cons y ys ih =>
    rw [List.pairwise_cons] at hl
    rw [insertLE]
    by_cases h : le x y = true
    · rw [if_pos h, List.pairwise_cons]
      refine ⟨?_, List.pairwise_cons.mpr hl⟩
      intro b hb
      rcases List.mem_cons.mp hb with rfl | hb'
      · exact h
      · exact htrans x y b h (hl.1 b hb')
    · rw [if_neg h, List.pairwise_cons]
      refine ⟨?_, ih hl.2⟩
      intro b hb
      rw [mem_insertLE] at hb
      rcases hb with hbx | hb'
      · rw [hbx]
        have h2 := htot x y
        rw [Bool.or_eq_true] at h2
        rcases h2 with h1 | h1
        · exact absurd h1 h
        · exact h1
      · exact hl.1 b hb'

theorem mem_sortByLE {α : Type} (le : α → α → Bool) (l : List α) (a : α) :
    a ∈ sortByLE le l ↔ a ∈ l := by
  induction l with
  | nil => simp [sortByLE]
  | cons x xs ih =>
    rw [sortByLE, mem_insertLE]
    simp [ih]

theorem sorted_sortByLE {α : Type} (le : α → α → Bool)
    (htot : ∀ a b, (le a b || le b a) = true)
    (htrans : ∀ a b c, le a b = true → le b c = true → le a c = true)
    (l : List α) :
    (sortByLE le l).Pairwise (fun a b => le a b = true) := by
  induction l with
  | nil => simp [sortByLE]
  | cons x xs ih => exact sorted_insertLE le htot htrans x _ ih

/-- Lexicographic combination of a strict comparison on the first component
with a weak one on the second. -/
def lexPair {α β : Type} (ltA : α → α → Bool) (leB : β → β → Bool)
    (x y : α × β) : Bool :=
  if ltA x.1 y.1 then true
  else if ltA y.1 x.1 then false
  else leB x.2 y.2

theorem lexPair_total {α β : Type} (ltA : α → α → Bool) (leB : β → β → Bool)
    (hbtot : ∀ x y, (leB x y || leB y x) = true) :
    ∀ x y, (lexPair ltA leB x y || lexPair ltA leB y x) = true := by
  intro x y
  rw [lexPair, lexPair]
  by_cases h1 : ltA x.1 y.1 = true
  · simp [h1]
  · by_cases h2 : ltA y.1 x.1 = true
    · simp [h1, h2]
    · simp only [h1, h2, Bool.false_eq_true, if_false]
      exact hbtot x.2 y.2

theorem lexPair_trans {α β : Type} (ltA : α → α → Bool) (leB : β → β → Bool)
    (hatrans : ∀ a b c, ltA a b = true → ltA b c = true → ltA a c = true)
    (haeq : ∀ a b, ltA a b = false → ltA b a = false → a = b)
    (hbtrans : ∀ x y z, leB x y = true → leB y z = true → leB x z = true) :
    ∀ x y z, lexPair ltA leB x y = true → lexPair ltA leB y z = true →
      lexPair ltA leB x z = true := by
  intro x y z hxy hyz
  by_cases h1 : ltA x.1 y.1 = true
  · by_cases h2 : ltA y.1 z.1 = true
    · rw [lexPair, if_pos (hatrans _ _ _ h1 h2)]
    · by_cases h3 : ltA z.1 y.1 = true
      · rw [lexPair] at hyz
        rw [if_neg h2, if_pos h3] at hyz
        cases hyz
      · have he : y.1 = z.1 :=
          haeq _ _ (Bool.eq_false_iff.mpr h2) (Bool.eq_false_iff.mpr h3)
        rw [lexPair, ← he, if_pos h1]
  · by_cases h1' : ltA y.1 x.1 = true
    · rw [lexPair, if_neg h1, if_pos h1'] at hxy
      cases hxy
    · have he : x.1 = y.1 :=
        haeq _ _ (Bool.eq_false_iff.mpr h1) (Bool.eq_false_iff.mpr h1')
      rw [lexPair, if_neg h1, if_neg h1'] at hxy
      by_cases h2 : ltA y.1 z.1 = true
      · rw [lexPair, he, if_pos h2]
      · by_cases h3 : ltA z.1 y.1 = true
        · rw [lexPair, if_neg h2, if_pos h3] at hyz
          cases hyz
        · rw [lexPair, if_neg h2, if_neg h3] at hyz
          rw [lexPair, he, if_neg h2, if_neg h3]
          exact hbtrans _ _ _ hxy hyz

/-- Python `<` on Int keys. -/
def intLtB (a b : Int) : Bool := decide (a < b)

/-- `≤` on Nat keys. -/
def natLeB (a b : Nat) : Bool := decide (a ≤ b)

theorem intLtB_trans (a b c : Int) (h1 : intLtB a b = true)
    (h2 : intLtB b c = true) : intLtB a c = true := by
  simp only [intLtB, decide_eq_true_eq] at h1 h2 ⊢
  omega

theorem intLtB_eq (a b : Int) (h1 : intLtB a b = false)
    (h2 : intLtB b a = false) : a = b := by
  simp only [intLtB, decide_eq_false_iff_not] at h1 h2
  omega

theorem natLeB_total (a b : Nat) : (natLeB a b || natLeB b a) = true := by
  simp only [natLeB, Bool.or_eq_true, decide_eq_true_eq]
  omega

theorem natLeB_trans (a b c : Nat) (h1 : natLeB a b = true)
    (h2 : natLeB b c = true) : natLeB a c = true := by
  simp only [natLeB, decide_eq_true_eq] at h1 h2 ⊢
  omega

theorem strLt_trans (a b c : String) (h1 : strLt a b = true)
    (h2 : strLt b c = true) : strLt a c = true :=
  charListLt_trans _ _ _ h1 h2

theorem strLt_eq (a b : String) (h1 : strLt a b = false)
    (h2 : strLt b a = false) : a = b :=
  String.ext (charListLt_connex _ _ h1 h2)

/-- `ResourceType.list_order` of a type name via the join (none when the
type has no row and the inner join drops the resource). -/
def typeOrderOf (types : List ResourceType) (t : String) : Option Int :=
  (types.find? (fun ty => ty.name == t)).map (fun ty => ty.list_order)

/-- The ORDER BY key `(ResourceType.list_order, Resource.type,
Resource.name, Resource.id)` of a joined row. -/
def resKey (types : List ResourceType) (r : Resource) :
    Int × String × String × Nat :=
  ((typeOrderOf types r.type).getD 0, r.type, r.name, r.id)

/-- Comparison of two joined rows by the ORDER BY key. -/
def resLE (types : List ResourceType) (a b : Resource) : Bool :=
  lexPair intLtB (lexPair strLt (lexPair strLt natLeB))
    (resKey types a) (resKey types b)

theorem resLE_total (types : List ResourceType) (a b : Resource) :
    (resLE types a b || resLE types b a) = true := by
  apply lexPair_total
  intro x y
  apply lexPair_total
  intro x' y'
  apply lexPair_total
  intro x'' y''
  exact natLeB_total x'' y''

theorem resLE_trans (types : List ResourceType) (a b c : Resource)
    (h1 : resLE types a b = true) (h2 : resLE types b c = true) :
    resLE types a c = true := by
  revert h1 h2
  apply lexPair_trans intLtB _ intLtB_trans intLtB_eq
  apply lexPair_trans strLt _ strLt_trans strLt_eq
  apply lexPair_trans strLt _ strLt_trans strLt_eq
  exact natLeB_trans

/-- The sorted children query of `collect_resources`:
`filter(parent_id == rid)` joined with `resource_types`, ordered by
`(list_order, type, name, id)`. -/
def childRowsSorted (types : List ResourceType) (db : List Resource)
    (rid : Nat) : List Resource :=
  sortByLE (resLE types)
    (db.filter (fun r => r.parent_id == some rid
      && types.any (fun ty => ty.name == r.type)))

/-- `ResourcesController.collect_resources`: emit the resource with its
depth and permission flag, then recurse over the sorted children with
depth + 1 (pre-order, depth-first). -/
def collect_resources (fuel : Nat) (types : List ResourceType)
    (perms : List Permission) (db : List Resource) (resource : Resource)
    (depth : Nat) : List HierarchyItem :=
  { depth := depth, resource := resource,
    permissions := perms.any (fun pm => pm.resource_id == resource.id) } ::
  (match fuel with
   | 0 => []
   | f + 1 =>
     (childRowsSorted types db resource.id).flatMap
       (fun child => collect_resources f types perms db child (depth + 1)))

/-- The root-finding loop of `ResourcesController.hierarchy`: follow
`parent` references upward until none (or a dangling parent id). -/
def rootOf (fuel : Nat) (db : List Resource) (r : Resource) : Resource :=
  match fuel with
  | 0 => r
  | f + 1 =>
    match r.parent_id with
    | none => r
    | some pid =>
      match db.find? (fun q => q.id == pid) with
      | none => r
      | some p => rootOf f db p

/-- `ResourcesController.hierarchy`: find the resource (`404` = `none`),
walk up to the root, then collect the hierarchy from the root at
depth 0. -/
def hierarchy_items (fuel : Nat) (types : List ResourceType)
    (perms : List Permission) (db : List Resource) (id : Nat) :
    Option (List HierarchyItem) :=
  match db.find? (fun r => r.id == id) with
  | none => none
  | some resource =>
    some (collect_resources fuel types perms db (rootOf fuel db resource) 0)

/-- Claim C5 (counterexample): the children query orders by
`(list_order, type, name, id)` — the resource TYPE is a tie-break before
the name, which the claim omits.  With two siblings whose types share the
same list_order, the sibling named "z" (type "a", id 3) is listed BEFORE
the sibling named "a" (type "b", id 2), violating the claimed
(list_order, name, id) order. -/
theorem hierarchy_sibling_order_counterexample :
    (hierarchy_items 5 [⟨"root", "", 0⟩, ⟨"a", "", 1⟩, ⟨"b", "", 1⟩] []
        [⟨1, "root", "r", none⟩, ⟨2, "b", "a", some 1⟩, ⟨3, "a", "z", some 1⟩]
        1).map (fun items => items.map (fun e => (e.depth, e.resource.id,
          e.resource.name)))
      = some [(0, 1, "r"), (1, 3, "z"), (1, 2, "a")]
    ∧ typeOrderOf [⟨"root", "", 0⟩, ⟨"a", "", 1⟩, ⟨"b", "", 1⟩] "a"
        = typeOrderOf [⟨"root", "", 0⟩, ⟨"a", "", 1⟩, ⟨"b", "", 1⟩] "b"
    ∧ strLt "a" "z" = true :=
  ⟨rfl, rfl, rfl⟩

theorem rootOf_stable {db : List Resource} {dep : Nat → Nat}
    (hnd : (db.map (·.id)).Nodup) (hdep : DepthOk db dep) :
    ∀ (f : Nat) (r : Resource), r ∈ db → dep r.id ≤ f →
      rootOf f db r = rootOf (f + 1) db r := by
  intro f
  induction f with
  | zero =>
    intro r hr hdf
    rw [rootOf, rootOf]
    cases hp : r.parent_id with
    | none => rfl
    | some pid =>
      cases hf : db.find? (fun q => q.id == pid) with
      | none => simp only [hf]
      | some p =>
        exfalso
        have := hdep r hr pid hp
        omega
  | succ f ihf =>
    intro r hr hdf
    rw [rootOf, rootOf]
    cases hp : r.parent_id with
    | none => rfl
    | some pid =>
      cases hf : db.find? (fun q => q.id == pid) with
      | none => simp only [hf]
      | some p =>
        simp only [hf]
        have hpmem := List.mem_of_find?_eq_some hf
        have hpid : p.id = pid := by simpa using List.find?_some hf
        apply ihf p hpmem
        have := hdep r hr pid hp
        rw [hpid]
        omega

theorem rootOf_stable_ge {db : List Resource} {dep : Nat → Nat}
    (hnd : (db.map (·.id)).Nodup) (hdep : DepthOk db dep) :
    ∀ (k f : Nat) (r : Resource), r ∈ db → dep r.id ≤ f →
      rootOf f db r = rootOf (f + k) db r := by
  intro k
  induction k with
  | zero => intro f r _ _; rfl
  | succ k ihk =>
    intro f r hr hdf
    calc rootOf f db r = rootOf (f + k) db r := ihk f r hr hdf
      _ = rootOf (f + k + 1) db r :=
          rootOf_stable hnd hdep (f + k) r hr (by omega)
      _ = rootOf (f + (k + 1)) db r := rfl

theorem rootOf_anc_eq {db : List Resource} {dep : Nat → Nat} {fuel : Nat}
    (hnd : (db.map (·.id)).Nodup) (hdep : DepthOk db dep)
    (hfe : ∀ q ∈ db, dep q.id < fuel) :
    ∀ a b, Anc db a b → ∀ ra, ra ∈ db → ra.id = a → ∀ rb, rb ∈ db →
      rb.id = b → rootOf fuel db ra = rootOf fuel db rb := by
  intro a b h
  induction h with
  | refl a =>
    intro ra hra hraid rb hrb hrbid
    have : ra = rb := row_id_inj hnd hra hrb (by rw [hraid, hrbid])
    rw [this]
  | step r p t hr hp h ih =>
    intro ra hra hraid rb hrb hrbid
    have hrar : ra = r := row_id_inj hnd hra hr hraid
    have hf1 : dep ra.id < fuel := hfe ra hra
    cases fuel with
    | zero => omega
    | succ f =>
      rw [hrar]
      cases hfind : db.find? (fun q => q.id == p) with
      | none =>
        exfalso
        rcases anc_inv h with heq | ⟨r', hr', hr'id, p', hp', _⟩
        · rw [List.find?_eq_none] at hfind
          exact hfind rb hrb (by simp [hrbid, heq])
        · rw [List.find?_eq_none] at hfind
          exact hfind r' hr' (by simp [hr'id])
      | some prow =>
        have hpmem := List.mem_of_find?_eq_some hfind
        have hpid : prow.id = p := by simpa using List.find?_some hfind
        have hroot : rootOf (f + 1) db r = rootOf f db prow := by
          rw [rootOf]
          simp only [hp, hfind]
        have hstable : rootOf f db prow = rootOf (f + 1) db prow := by
          apply rootOf_stable hnd hdep f prow hpmem
          have h1 := hdep r hr p hp
          have h2 := hfe r hr
          rw [hpid]
          omega
        rw [hroot, hstable]
        exact ih prow hpmem hpid rb hrb hrbid

theorem collect_resources_depth_link (types : List ResourceType)
    (perms : List Permission) (db : List Resource) :
    ∀ (fuel : Nat) (r : Resource) (d : Nat),
      ∀ e ∈ collect_resources fuel types perms db r d,
        (e.depth = d ∧ e.resource = r)
        ∨ ∃ pe ∈ collect_resources fuel types perms db r d,
            e.depth = pe.depth + 1
            ∧ e.resource.parent_id = some pe.resource.id := by
  intro fuel
  induction fuel with
  | zero =>
    intro r d e he
    rw [collect_resources] at he
    simp only [List.mem_singleton] at he
    left
    rw [he]
    exact ⟨rfl, rfl⟩
  | succ f ihf =>
    intro r d e he
    rw [collect_resources] at he
    rcases List.mem_cons.mp he with heq | he'
    · left
      rw [heq]
      exact ⟨rfl, rfl⟩
    · rw [List.mem_flatMap] at he'
      obtain ⟨c, hc, hec⟩ := he'
      rcases ihf c (d + 1) e hec with ⟨hd, hres⟩ | ⟨pe, hpe, hd, hpp⟩
      · right
        refine ⟨⟨d, r, perms.any (fun pm => pm.resource_id == r.id)⟩, ?_, ?_, ?_⟩
        · rw [collect_resources]
          exact List.mem_cons_self _ _
        · rw [hd]
        · rw [hres]
          have hmem := (mem_sortByLE _ _ c).mp hc
          rw [List.mem_filter] at hmem
          have hpar := hmem.2
          simp only [Bool.and_eq_true, beq_iff_eq] at hpar
          exact hpar.1
      · right
        refine ⟨pe, ?_, hd, hpp⟩
        rw [collect_resources]
        apply List.mem_cons_of_mem
        rw [List.mem_flatMap]
        exact ⟨c, hc, hpe⟩

/-- Claim C5 (amended): on acyclic data with distinct ids and enough fuel,
(a) walking parent links upward from related nodes reaches the same root;
(b) the hierarchy view of a found id is a sequence starting with that root
at depth 0; (c) every listed entry is the root at depth 0 or the child of
another listed entry with depth exactly one greater; (d) the sibling
enumeration used at every node is sorted by the SQL key — resource-type
list_order, then TYPE, then name, then id (the type tie-break precedes the
name) — and lists exactly the children that have a resource-type row. -/
theorem hierarchy_correct (fuel : Nat) (types : List ResourceType)
    (perms : List Permission) (db : List Resource) (dep : Nat → Nat)
    (hnd : (db.map (·.id)).Nodup) (hdep : DepthOk db dep)
    (hfe : ∀ q ∈ db, dep q.id < fuel) :
    (∀ a b, Anc db a b → ∀ ra ∈ db, ra.id = a → ∀ rb ∈ db, rb.id = b →
        rootOf fuel db ra = rootOf fuel db rb)
    ∧ (∀ id items, hierarchy_items fuel types perms db id = some items →
        ∃ r ∈ db, r.id = id ∧
          items.head? = some ⟨0, rootOf fuel db r,
            perms.any (fun pm => pm.resource_id == (rootOf fuel db r).id)⟩)
    ∧ (∀ id items, hierarchy_items fuel types perms db id = some items →
        ∀ e ∈ items,
          (e.depth = 0 ∧ ∃ r ∈ db, r.id = id ∧ e.resource = rootOf fuel db r)
          ∨ ∃ pe ∈ items, e.depth = pe.depth + 1
              ∧ e.resource.parent_id = some pe.resource.id)
    ∧ (∀ rid, (childRowsSorted types db rid).Pairwise
        (fun a b => resLE types a b = true))
    ∧ (∀ rid c, c ∈ childRowsSorted types db rid ↔
        c ∈ db ∧ c.parent_id = some rid ∧ ∃ ty ∈ types, ty.name = c.type) := by
  refine ⟨?_, ?_, ?_, ?_, ?_⟩
  · intro a b h ra hra hraid rb hrb hrbid
    exact rootOf_anc_eq hnd hdep hfe a b h ra hra hraid rb hrb hrbid
  · intro id items hitems
    rw [hierarchy_items] at hitems
    cases hfind : db.find? (fun r => r.id == id) with
    | none => rw [hfind] at hitems; cases hitems
    | some r =>
      rw [hfind] at hitems
      have hmem := List.mem_of_find?_eq_some hfind
      have hid : r.id = id := by simpa using List.find?_some hfind
      refine ⟨r, hmem, hid, ?_⟩
      cases hitems
      rw [collect_resources.eq_def]
      rfl
  · intro id items hitems
    rw [hierarchy_items] at hitems
    cases hfind : db.find? (fun r => r.id == id) with
    | none => rw [hfind] at hitems; cases hitems
    | some r =>
      rw [hfind] at hitems
      have hmem := List.mem_of_find?_eq_some hfind
      have hid : r.id = id := by simpa using List.find?_some hfind
      cases hitems
      intro e he
      rcases collect_resources_depth_link types perms db fuel
          (rootOf fuel db r) 0 e he with ⟨hd, hres⟩ | hrec
      · left
        exact ⟨hd, r, hmem, hid, hres⟩
      · right
        exact hrec
  · intro rid
    exact sorted_sortByLE _ (resLE_total types) (resLE_trans types) _
  · intro rid c
    rw [childRowsSorted, mem_sortByLE, List.mem_filter]
    simp [List.any_eq_true, and_assoc]

theorem hierarchy_correct_witness :
    (childRowsSorted [⟨"root", "", 0⟩, ⟨"a", "", 1⟩, ⟨"b", "", 1⟩]
        [⟨1, "root", "r", none⟩, ⟨2, "b", "a", some 1⟩,
         ⟨3, "a", "z", some 1⟩] 1).Pairwise
      (fun a b => resLE [⟨"root", "", 0⟩, ⟨"a", "", 1⟩, ⟨"b", "", 1⟩] a b
        = true) :=
  (hierarchy_correct 5 [⟨"root", "", 0⟩, ⟨"a", "", 1⟩, ⟨"b", "", 1⟩] []
    [⟨1, "root", "r", none⟩, ⟨2, "b", "a", some 1⟩, ⟨3, "a", "z", some 1⟩]
    (fun n => n) (by decide)
    (by
      intro r hr p hp
      fin_cases hr <;> simp_all <;> omega)
    (by decide)).2.2.2.1 1
